import Mathlib

/-!
Verification of the sandboxed filesystem tool layer (`src/tools.ts`).

The TypeScript source is shallowly embedded as follows:

* JavaScript strings are modelled as `List Char` (`JStr`).  JavaScript
  indexes strings by UTF-16 code unit; this model indexes by code point,
  which agrees on all inputs appearing in the claims.
* Node `path` (POSIX flavour) is modelled by `pathResolve`, `pathRelative`
  and `pathIsAbsolute` over `/`-separated segments, for absolute bases —
  the code only ever resolves against `rootAbs`, which Node guarantees to
  be absolute.
* The Node filesystem is external to the program.  Its syscalls are
  modelled as explicit parameters: `FsOps` carries the outcome of
  `fs.realpath` and `fs.readFile`, an `Except SysError (List JStr)`
  parameter carries the outcome of the recursive `readdir` enumeration,
  and `FsTree` is a concrete directory tree describing what a successful
  enumeration sees (entry order = enumeration order).
* `Effect`-typed failures become `Except ToolError`; `Effect.tryPromise`
  catch clauses become the corresponding `match` arms.
* Wall-clock time (`Date.now()` differences) is an external input and is
  passed in as the `durationMs` parameter of the logging wrapper.
* `Buffer.toString("utf8")` is modelled by `utf8Decode`, a standard UTF-8
  decoder emitting U+FFFD for invalid sequences; the source does not pin
  down Node's exact replacement policy and the spec calls this an open
  question, so only the byte-slicing around the decoder is load-bearing.
* The `sha256_16` field of the readFile log summary is omitted: it is an
  external crypto primitive and no claim depends on it.
-/

/-- JavaScript strings, modelled as lists of characters. -/
abbrev JStr := List Char

/-- Occurrence test: JavaScript `hay.includes(pat)` (literal substring). -/
def hasSubstr : JStr → JStr → Bool
  | hay, pat =>
    if pat.isPrefixOf hay then true
    else match hay with
      | [] => false
      | _ :: t => hasSubstr t pat

/-- JavaScript `s.split(c)` for a one-character separator. -/
def splitChar (c : Char) : JStr → List JStr
  | [] => [[]]
  | x :: xs =>
    let r := splitChar c xs
    if x = c then [] :: r else (x :: r.headD []) :: r.tail

/-- JavaScript `s.trim()` (both-ends whitespace strip). -/
def jsTrim (s : JStr) : JStr :=
  ((s.dropWhile Char.isWhitespace).reverse.dropWhile Char.isWhitespace).reverse

/-- JavaScript `s.toLowerCase()`. -/
def jsLower (s : JStr) : JStr := s.map Char.toLower

/-- JavaScript `s.endsWith(t)`. -/
def jsEndsWith (s t : JStr) : Bool := t.reverse.isPrefixOf s.reverse

/-- Boolean lexicographic comparison of strings by character, the model of
the default JavaScript array sort comparator on strings. -/
def listLexLe : JStr → JStr → Bool
  | [], _ => true
  | _ :: _, [] => false
  | a :: as, b :: bs =>
    if a < b then true else if b < a then false else listLexLe as bs

/-- The sort relation used for file lists. -/
def strLeP (a b : JStr) : Prop := listLexLe a b = true

instance : DecidableRel strLeP := fun a b => instDecidableEqBool (listLexLe a b) true

/-- `Array.prototype.sort()` on relative path strings: a comparison sort by
`listLexLe`. -/
def sortPaths (l : List JStr) : List JStr := List.insertionSort strLeP l

/-- Split a `\r?\n`-separated text into lines: split at each `\n` and strip
one trailing `\r` from every piece that was followed by a `\n`. -/
def stripCrAllButLast : List JStr → List JStr
  | [] => []
  | [x] => [x]
  | x :: y :: r =>
    (if jsEndsWith x ['\r'] then x.dropLast else x) :: stripCrAllButLast (y :: r)

/-- JavaScript `content.split(/\r?\n/)`. -/
def splitLines (s : JStr) : List JStr := stripCrAllButLast (splitChar '\n' s)

/-- Standard UTF-8 decoding with U+FFFD replacement on invalid input (fuel
recursion; the fuel is instantiated with the byte count). -/
def utf8DecodeAux : Nat → List Nat → JStr
  | 0, _ => []
  | _ + 1, [] => []
  | fuel + 1, b :: rest =>
    if b < 0x80 then Char.ofNat b :: utf8DecodeAux fuel rest
    else if 0xC2 ≤ b ∧ b ≤ 0xDF then
      match rest with
      | b2 :: rest2 =>
        if 0x80 ≤ b2 ∧ b2 < 0xC0 then
          Char.ofNat ((b - 0xC0) * 64 + (b2 - 0x80)) :: utf8DecodeAux fuel rest2
        else '�' :: utf8DecodeAux fuel rest
      | [] => ['�']
    else if 0xE0 ≤ b ∧ b ≤ 0xEF then
      match rest with
      | b2 :: b3 :: rest3 =>
        if (0x80 ≤ b2 ∧ b2 < 0xC0) ∧ (0x80 ≤ b3 ∧ b3 < 0xC0) then
          Char.ofNat ((b - 0xE0) * 4096 + (b2 - 0x80) * 64 + (b3 - 0x80)) ::
            utf8DecodeAux fuel rest3
        else '�' :: utf8DecodeAux fuel rest
      | _ => ['�']
    else if 0xF0 ≤ b ∧ b ≤ 0xF4 then
      match rest with
      | b2 :: b3 :: b4 :: rest4 =>
        if (0x80 ≤ b2 ∧ b2 < 0xC0) ∧ (0x80 ≤ b3 ∧ b3 < 0xC0) ∧ (0x80 ≤ b4 ∧ b4 < 0xC0) then
          Char.ofNat
              ((b - 0xF0) * 262144 + (b2 - 0x80) * 4096 + (b3 - 0x80) * 64 + (b4 - 0x80)) ::
            utf8DecodeAux fuel rest4
        else '�' :: utf8DecodeAux fuel rest
      | _ => ['�']
    else '�' :: utf8DecodeAux fuel rest

/-- `Buffer.toString("utf8")`. -/
def utf8Decode (bytes : List Nat) : JStr := utf8DecodeAux bytes.length bytes

/-! ### POSIX path model (`node:path`, absolute bases) -/

/-- `path.isAbsolute` on POSIX. -/
def pathIsAbsolute (s : JStr) : Bool :=
  match s with
  | '/' :: _ => true
  | _ => false

/-- Split an absolute or relative path into its nonempty segments. -/
def splitSegs (s : JStr) : List JStr := (splitChar '/' s).filter (fun seg => !seg.isEmpty)

/-- Lexical normalisation of an absolute path's segment list: drop `.`,
let `..` pop the previous segment (and vanish at the root). -/
def normAbsAux : List JStr → List JStr → List JStr
  | acc, [] => acc
  | acc, seg :: rest =>
    if seg = ['.'] then normAbsAux acc rest
    else if seg = ['.', '.'] then normAbsAux acc.dropLast rest
    else normAbsAux (acc ++ [seg]) rest

/-- Join segments with `/` (no leading separator). -/
def joinSegs : List JStr → JStr
  | [] => []
  | [s] => s
  | s :: t :: r => s ++ '/' :: joinSegs (t :: r)

/-- `path.resolve(root, p)` for an absolute `root` (the only use in the
source: `rootAbs` is produced by `Path.resolve` and hence absolute). -/
def pathResolve (root p : JStr) : JStr :=
  '/' :: joinSegs (normAbsAux []
    (if pathIsAbsolute p then splitSegs p else splitSegs root ++ splitSegs p))

/-- Drop the common prefix of two segment lists, returning both remainders. -/
def dropCommon : List JStr → List JStr → List JStr × List JStr
  | a :: as, b :: bs => if a = b then dropCommon as bs else (a :: as, b :: bs)
  | as, bs => (as, bs)

/-- `path.relative(a, b)` for absolute `a`, `b`. -/
def pathRelative (a b : JStr) : JStr :=
  let p := dropCommon (normAbsAux [] (splitSegs a)) (normAbsAux [] (splitSegs b))
  joinSegs (p.1.map (fun _ => ['.', '.']) ++ p.2)

/-! ### JSON values and error/event types -/

/-- JavaScript numbers as seen by the input validators: a finite rational
or one of the non-finite specials (`NaN`, `±Infinity`).  `typeof x`
is `"number"` for all four; `Number.isFinite` holds only for `finite`. -/
inductive JsNum where
  | finite (q : Rat)
  | nan
  | inf
  | negInf
deriving DecidableEq

/-- Raw JSON input values handed to a tool's `execute`. -/
inductive Json where
  | null
  | bool (b : Bool)
  | num (n : JsNum)
  | str (s : JStr)
  | arr (elems : List Json)
  | obj (fields : List (JStr × Json))

/-- A Node `Error` as observed by the catch clauses: a message plus the
optional string `code` property tested by `isErrnoException`. -/
structure SysError where
  code : Option JStr
  message : JStr
deriving DecidableEq

/-- The three `Data.TaggedError` classes of the source. -/
inductive ToolError where
  | denied (tool path reason : JStr)
  | fsError (tool message : JStr) (cause : SysError)
  | inputError (tool message : JStr) (input : Json)

/-- Output summaries attached to `tool:success` events (the `sha256_16`
hash of the readFile summary is an external crypto call and is omitted). -/
inductive Summary where
  | listFiles (fileCount : Nat) (sample : List JStr)
  | searchText (matchCount : Nat) (sample : List (JStr × Nat × JStr))
  | readFile (path : JStr) (bytes : Nat) (truncated : Bool)

/-- Structured events emitted by the logging wrapper. -/
inductive ToolEvent where
  | start (tool : JStr) (input : Json)
  | success (tool : JStr) (durationMs : Nat) (outputSummary : Summary)
  | error (tool : JStr) (durationMs : Nat) (cause : ToolError)

/-! ### Deny list and resolvers (`tools.ts` lines 80–223) -/

def DEFAULT_MAX_FILES : Nat := 400
def DEFAULT_MAX_FILE_BYTES : Nat := 20000
def DEFAULT_MAX_MATCHES : Nat := 50

/-- `{denied, reason}` verdict of the deny-list policy. -/
structure DenyVerdict where
  denied : Bool
  reason : Option JStr
deriving DecidableEq

/-- `isDeniedRelPath` (source lines 89–110).  The source first rejoins
`rel.split(Path.sep)` with `"/"`; with the POSIX separator that is the
identity, so `normalized = rel` here. -/
def isDeniedRelPath (rel : JStr) : DenyVerdict :=
  let segments := (splitChar '/' rel).filter (fun s => !s.isEmpty)
  let base := segments.getLast?.getD rel
  if segments.contains ".git".data then ⟨true, some "Reading .git is blocked".data⟩
  else if segments.contains "node_modules".data then
    ⟨true, some "Reading node_modules is blocked".data⟩
  else if segments.contains "output".data then
    ⟨true, some "Reading output is blocked".data⟩
  else if base = ".env".data || ".env.".data.isPrefixOf base then
    ⟨true, some "Reading .env is blocked".data⟩
  else if base = "id_rsa".data || "id_rsa.".data.isPrefixOf base then
    ⟨true, some "Reading SSH keys is blocked".data⟩
  else if jsEndsWith base ".pem".data then
    ⟨true, some "Reading .pem files is blocked".data⟩
  else if jsEndsWith base ".key".data then
    ⟨true, some "Reading .key files is blocked".data⟩
  else ⟨false, none⟩

/-- The escape test shared by `resolveInsideRoot` (lines 120–125) and
`ensureRealpathInsideRoot` (lines 199–204): the relative form starts with
`..`, contains a `..` segment, or is itself absolute (empty and `.`
excluded). -/
def escapeCheck (rel : JStr) : Bool :=
  if rel = [] ∨ rel = ['.'] then false
  else "..".data.isPrefixOf rel || (splitChar '/' rel).contains "..".data
    || pathIsAbsolute rel

/-- The `(absolute, relativeToRoot)` pair produced by the resolver. -/
structure Resolved where
  abs : JStr
  rel : JStr
deriving DecidableEq

/-- `resolveInsideRoot` (source lines 112–149). -/
def resolveInsideRoot (tool rootAbs userPath : JStr) : Except ToolError Resolved :=
  let abs := pathResolve rootAbs userPath
  let rel := pathRelative rootAbs abs
  if escapeCheck rel then
    .error (.denied tool userPath "Path escapes target root".data)
  else
    let d := isDeniedRelPath rel
    if d.denied then .error (.denied tool rel (d.reason.getD "Denied".data))
    else .ok ⟨abs, rel⟩

/-- Read result of the safe reader. -/
structure ReadRes where
  content : JStr
  truncated : Bool
deriving DecidableEq

/-- `safeReadTextFile` (source lines 151–169), with the outcome of
`Fs.readFile(absPath)` passed in as `readRes`. -/
def safeReadTextFile (tool : JStr) (readRes : Except SysError (List Nat))
    (maxBytes : Nat) : Except ToolError ReadRes :=
  match readRes with
  | .error cause => .error (.fsError tool cause.message cause)
  | .ok buf =>
    let truncated := buf.length > maxBytes
    let slice := if truncated then buf.take maxBytes else buf
    .ok ⟨utf8Decode slice, truncated⟩

/-- `ensureRealpathInsideRoot` (source lines 177–223), with the outcomes of
`Fs.realpath(rootAbs)` and `Fs.realpath(absPath)` passed in.  The model
collapses the `targetReal` falsiness test (line 196): `realpath` never
resolves to the empty string. -/
def ensureRealpathInsideRoot (tool : JStr)
    (rootRealRes targetRealRes : Except SysError JStr) (userPath : JStr) :
    Except ToolError Unit :=
  match rootRealRes with
  | .error cause => .error (.fsError tool cause.message cause)
  | .ok rootReal =>
    match targetRealRes with
    | .error cause =>
      if cause.code = some "ENOENT".data then .ok ()
      else .error (.fsError tool cause.message cause)
    | .ok targetReal =>
      let rel := pathRelative rootReal targetReal
      if escapeCheck rel then
        .error (.denied tool userPath "Path resolves outside target root".data)
      else .ok ()

/-- The filesystem syscalls used by `readFileEffect` and `searchTextEffect`:
each function gives the outcome of the corresponding Node call. -/
structure FsOps where
  realpath : JStr → Except SysError JStr
  readBytes : JStr → Except SysError (List Nat)

/-- Result record of `readFile`. -/
structure ReadOut where
  root : JStr
  path : JStr
  content : JStr
  truncated : Bool
deriving DecidableEq

/-- `readFileEffect` (source lines 273–292). -/
def readFileEffect (fs : FsOps) (rootAbs relPath : JStr) (maxBytes : Nat) :
    Except ToolError ReadOut := do
  let resolved ← resolveInsideRoot "readFile".data rootAbs relPath
  let _ ← ensureRealpathInsideRoot "readFile".data (fs.realpath rootAbs)
    (fs.realpath resolved.abs) resolved.rel
  let file ← safeReadTextFile "readFile".data (fs.readBytes resolved.abs) maxBytes
  return ⟨rootAbs, resolved.rel, file.content, file.truncated⟩

/-! ### Directory walk (`tools.ts` lines 225–258)

A directory's entry list is represented as a cons spine inside `FsTree`
itself (`dnil` / `dcons`), so that the walk is plain structural recursion.
`dcons name node rest` is a directory whose first `readdir` entry is
`(name, node)` and whose remaining entries form the directory `rest`;
entry order is enumeration order.  `special` stands for a dirent that is
neither file, directory nor symlink (fifo, socket, …). -/

inductive FsTree where
  | file (bytes : List Nat)
  | symlink (target : JStr)
  | special
  | dnil
  | dcons (name : JStr) (node : FsTree) (rest : FsTree)

/-- `SKIP_DIRS` (source line 225). -/
def SKIP_DIRS : List JStr := ["node_modules".data, ".git".data, "output".data]

/-- `walkDir` (source lines 228–258) on the tree model: skip `SKIP_DIRS`
names, skip symlinks, recurse into directories, collect files under their
root-relative joined path.  `relSegs` is the segment form of
`Path.relative(rootAbs, dir)` for the directory being read; file paths are
emitted as `Path.relative(rootAbs, Path.join(dir, name))`, which for the
clean names `readdir` produces is exactly `joinSegs (relSegs ++ [name])`. -/
def walkDir (relSegs : List JStr) : FsTree → List JStr
  | .file _ => []
  | .symlink _ => []
  | .special => []
  | .dnil => []
  | .dcons name node rest =>
    (if SKIP_DIRS.contains name then []
     else match node with
       | .symlink _ => []
       | .file _ => [joinSegs (relSegs ++ [name])]
       | .special => []
       | d => walkDir (relSegs ++ [name]) d)
    ++ walkDir relSegs rest

/-- Result record of `listFiles`. -/
structure ListOut where
  root : JStr
  files : List JStr
deriving DecidableEq

/-- `listFilesEffect` (source lines 261–271).  `enum` is the outcome of
`walkDir(rootAbs, rootAbs)`: `.ok` with the collected relative paths, or
the `readdir` failure that its catch clause converts to a `ToolFsError`.
A successful enumeration of a tree `t` is `.ok (walkDir [] t)`. -/
def listFilesEffect (enum : Except SysError (List JStr)) (rootAbs : JStr)
    (maxFiles : Nat) : Except ToolError ListOut :=
  match enum with
  | .error cause => .error (.fsError "listFiles".data cause.message cause)
  | .ok all =>
    .ok ⟨rootAbs,
      (sortPaths (all.filter (fun rel => !(isDeniedRelPath rel).denied))).take maxFiles⟩

/-! ### Text search (`tools.ts` lines 294–320) -/

/-- One search match record. -/
structure SMatch where
  path : JStr
  line : Nat
  preview : JStr
deriving DecidableEq

/-- Result record of `searchText`. -/
structure SearchOut where
  root : JStr
  query : JStr
  matches' : List SMatch
deriving DecidableEq

/-- The binary/media extension filter
`/\.(png|jpg|jpeg|gif|webp|ico|zip|gz|tgz|jar|pdf|woff2?)$/i`
(source line 304). -/
def hasBinaryExt (rel : JStr) : Bool :=
  ["png", "jpg", "jpeg", "gif", "webp", "ico", "zip", "gz", "tgz", "jar", "pdf",
    "woff", "woff2"].any
    (fun e => jsEndsWith (jsLower rel) ('.' :: e.data))

/-- The inner line loop of `searchTextEffect` (source lines 311–317):
`i` is the 0-based line index, matches append until `maxMatches`. -/
def scanLines (query rel : JStr) (maxMatches : Nat) :
    Nat → List JStr → List SMatch → List SMatch
  | _, [], acc => acc
  | i, line :: rest, acc =>
    if acc.length ≥ maxMatches then acc
    else if hasSubstr line query then
      scanLines query rel maxMatches (i + 1) rest (acc ++ [⟨rel, i + 1, line.take 200⟩])
    else scanLines query rel maxMatches (i + 1) rest acc

/-- The outer file loop of `searchTextEffect` (source lines 302–317). -/
def searchFiles (fs : FsOps) (rootAbs query : JStr) (maxMatches : Nat) :
    List JStr → List SMatch → Except ToolError (List SMatch)
  | [], acc => .ok acc
  | rel :: rest, acc =>
    if acc.length ≥ maxMatches then .ok acc
    else if hasBinaryExt rel then searchFiles fs rootAbs query maxMatches rest acc
    else do
      let resolved ← resolveInsideRoot "searchText".data rootAbs rel
      let file ← safeReadTextFile "searchText".data (fs.readBytes resolved.abs) 200000
      searchFiles fs rootAbs query maxMatches rest
        (scanLines query rel maxMatches 0 (splitLines file.content) acc)

/-- `searchTextEffect` (source lines 294–320). -/
def searchTextEffect (fs : FsOps) (enum : Except SysError (List JStr))
    (rootAbs query : JStr) (maxMatches : Nat) : Except ToolError SearchOut := do
  let listed ← listFilesEffect enum rootAbs DEFAULT_MAX_FILES
  let ms ← searchFiles fs rootAbs query maxMatches listed.files []
  return ⟨rootAbs, query, ms⟩

/-! ### Logging wrapper and tool façade (`tools.ts` lines 322–518) -/

/-- `withToolLogging` (source lines 322–352): emit `tool:start`, run the
wrapped effect, then emit exactly one of `tool:success`/`tool:error` and
pass the effect's outcome through unchanged.  The emitted event trace is
returned alongside the outcome; `durationMs` is the externally measured
wall-clock duration. -/
def withToolLogging {A : Type} (tool : JStr) (input : Json) (durationMs : Nat)
    (eff : Except ToolError A) (outputSummary : A → Summary) :
    List ToolEvent × Except ToolError A :=
  match eff with
  | .ok a =>
    ([.start tool input, .success tool durationMs (outputSummary a)], .ok a)
  | .error e =>
    ([.start tool input, .error tool durationMs e], .error e)

/-- Field lookup on a JSON object (`obj.k`); `none` for non-objects. -/
def getField (input : Json) (k : JStr) : Option Json :=
  match input with
  | .obj fields => ((fields.find? (fun kv => kv.1 = k)).map (fun kv => kv.2))
  | _ => none

/-- The shared optional-cap coercion
`typeof v === "number" && Number.isFinite(v) && v > 0 ? Math.floor(v) : default`
used for `max`, `maxMatches` and `maxBytes`. -/
def coerceCap (dflt : Nat) (v : Option Json) : Nat :=
  match v with
  | some (.num (.finite q)) => if 0 < q then q.floor.toNat else dflt
  | _ => dflt

/-- Summary of a `listFiles` output (source lines 390–393). -/
def listFilesSummary (out : ListOut) : Summary :=
  .listFiles out.files.length (out.files.take 20)

/-- `listFiles.execute` (source lines 373–396): coerce non-objects to `{}`,
coerce `max`, then run the effect under the logging wrapper (the logged
input is the coerced `{max}`). -/
def listFilesExecute (enum : Except SysError (List JStr)) (rootAbs : JStr)
    (input : Json) (durationMs : Nat) : List ToolEvent × Except ToolError ListOut :=
  let maxFiles := coerceCap DEFAULT_MAX_FILES (getField input "max".data)
  withToolLogging "listFiles".data
    (.obj [("max".data, .num (.finite maxFiles))]) durationMs
    (listFilesEffect enum rootAbs maxFiles) listFilesSummary

/-- Summary of a `searchText` output (source lines 448–451). -/
def searchTextSummary (out : SearchOut) : Summary :=
  .searchText out.matches'.length
    ((out.matches'.take 10).map (fun m => (m.path, m.line, m.preview)))

/-- `searchText.execute` (source lines 420–454): reject a missing,
non-string or blank `query` with `ToolInputError` before any filesystem
access, coerce `maxMatches`, then run the effect under logging. -/
def searchTextExecute (fs : FsOps) (enum : Except SysError (List JStr))
    (rootAbs : JStr) (input : Json) (durationMs : Nat) :
    List ToolEvent × Except ToolError SearchOut :=
  match getField input "query".data with
  | some (.str q) =>
    if jsTrim q = [] then
      ([], .error (.inputError "searchText".data
        "Invalid input: expected \x7b query: string \x7d".data input))
    else
      let maxMatches := coerceCap DEFAULT_MAX_MATCHES (getField input "maxMatches".data)
      withToolLogging "searchText".data
        (.obj [("query".data, .str q), ("maxMatches".data, .num (.finite maxMatches))])
        durationMs (searchTextEffect fs enum rootAbs q maxMatches) searchTextSummary
  | _ =>
    ([], .error (.inputError "searchText".data
      "Invalid input: expected \x7b query: string \x7d".data input))

/-- Summary of a `readFile` output (source lines 506–511) minus the
external `sha256_16` hash. -/
def readFileSummary (out : ReadOut) : Summary :=
  .readFile out.path out.content.length out.truncated

/-- `readFile.execute` (source lines 478–515): reject a missing, non-string
or blank `path` with `ToolInputError` before any filesystem access, coerce
`maxBytes`, then run the effect under logging. -/
def readFileExecute (fs : FsOps) (rootAbs : JStr) (input : Json)
    (durationMs : Nat) : List ToolEvent × Except ToolError ReadOut :=
  match getField input "path".data with
  | some (.str p) =>
    if jsTrim p = [] then
      ([], .error (.inputError "readFile".data
        "Invalid input: expected \x7b path: string \x7d".data input))
    else
      let maxBytes := coerceCap DEFAULT_MAX_FILE_BYTES (getField input "maxBytes".data)
      withToolLogging "readFile".data
        (.obj [("path".data, .str p), ("maxBytes".data, .num (.finite maxBytes))])
        durationMs (readFileEffect fs rootAbs p maxBytes) readFileSummary
  | _ =>
    ([], .error (.inputError "readFile".data
      "Invalid input: expected \x7b path: string \x7d".data input))

/-! ### Claim-level predicates -/

/-- The operation failed with some `ToolDeniedError`. -/
def failsDenied {A : Type} (r : Except ToolError A) : Prop :=
  ∃ tool pa reason, r = .error (.denied tool pa reason)

/-- The required-string validation test of `searchText.execute` /
`readFile.execute`: the field is absent, not a string, or blank after
trimming. -/
def blankOrNonString (v : Option Json) : Bool :=
  match v with
  | some (.str s) => jsTrim s = []
  | _ => true

/-- The optional-cap validation test: the field is absent, not a finite
number, or not `> 0` — exactly the inputs `coerceCap` replaces by the
default. -/
def invalidCap (v : Option Json) : Bool :=
  match v with
  | some (.num (.finite q)) => if 0 < q then false else true
  | _ => true

/-- `q` lies at or beneath the path `pfx`: it equals `pfx` or extends it
across a `/` boundary. -/
def isUnder (pfx q : JStr) : Bool := q = pfx || (pfx ++ ['/']).isPrefixOf q

/-- Segment lists at which the tree has a symbolic-link directory entry. -/
def symlinkPrefixes (segs : List JStr) : FsTree → List (List JStr)
  | .dcons name node rest =>
    (match node with
     | .symlink _ => [segs ++ [name]]
     | .file _ => []
     | .special => []
     | d => symlinkPrefixes (segs ++ [name]) d)
    ++ symlinkPrefixes segs rest
  | _ => []

/-- Names of the entries of a directory spine. -/
def dirNames : FsTree → List JStr
  | .dcons name _ rest => name :: dirNames rest
  | _ => []

/-- An entry name as `readdir` can actually produce it: nonempty, without
separators, and none of the two reserved dot entries. -/
def goodName (n : JStr) : Bool :=
  !n.isEmpty && !n.contains '/' && n ≠ ['.'] && n ≠ ['.', '.']

/-- Well-formedness of a tree as an image of a real directory: every entry
name is a possible `readdir` name and names are unique within a directory. -/
def wfTree : FsTree → Bool
  | .dcons name node rest =>
    goodName name && !(dirNames rest).contains name && wfTree node && wfTree rest
  | _ => true

/-- Recursive reordering of directory entries: the same tree up to the
enumeration order `readdir` happens to return at every level (the analogue
of `List.Perm` on each directory spine). -/
inductive TreePerm : FsTree → FsTree → Prop where
  | file (bytes : List Nat) : TreePerm (.file bytes) (.file bytes)
  | symlink (target : JStr) : TreePerm (.symlink target) (.symlink target)
  | special : TreePerm .special .special
  | dnil : TreePerm .dnil .dnil
  | dcons (name : JStr) {x y rest rest' : FsTree} :
      TreePerm x y → TreePerm rest rest' →
      TreePerm (.dcons name x rest) (.dcons name y rest')
  | swap (n m : JStr) (x y rest : FsTree) :
      TreePerm (.dcons n x (.dcons m y rest)) (.dcons m y (.dcons n x rest))
  | trans {a b c : FsTree} : TreePerm a b → TreePerm b c → TreePerm a c

/-- The walk in segment form: `walkDir` emits exactly these segment lists,
joined with `/` (proved below); used to reason about symlink avoidance. -/
def walkSegs (relSegs : List JStr) : FsTree → List (List JStr)
  | .file _ => []
  | .symlink _ => []
  | .special => []
  | .dnil => []
  | .dcons name node rest =>
    (if SKIP_DIRS.contains name then []
     else match node with
       | .symlink _ => []
       | .file _ => [relSegs ++ [name]]
       | .special => []
       | d => walkSegs (relSegs ++ [name]) d)
    ++ walkSegs relSegs rest

/-- Line scan in specification form: all matches of `query` in the lines,
1-based, previews capped at 200 characters, starting at 0-based index `i`. -/
def specLinesFrom (query rel : JStr) (i : Nat) : List JStr → List SMatch
  | [] => []
  | line :: rest =>
    (if hasSubstr line query then [⟨rel, i + 1, line.take 200⟩] else [])
      ++ specLinesFrom query rel (i + 1) rest

/-- Search result in specification form, before the `maxMatches` cap: scan
the non-binary files in list order, all lines in order. -/
def specSearch (query : JStr) (contentOf : JStr → JStr) (files : List JStr) :
    List SMatch :=
  (files.filter (fun rel => !hasBinaryExt rel)).flatMap
    (fun rel => specLinesFrom query rel 0 (splitLines (contentOf rel)))

/-! ### Concrete filesystems and trees used in witnesses and counterexamples -/

def wEnoent : SysError := ⟨some "ENOENT".data, "no such file or directory".data⟩

/-- A filesystem on which every syscall fails. -/
def wFsDead : FsOps := ⟨fun _ => .error wEnoent, fun _ => .error wEnoent⟩

/-- Root `/r` containing the regular file `README.md` = "hi". -/
def wFs3 : FsOps where
  realpath := fun p =>
    if p = "/r".data then .ok "/r".data
    else if p = "/r/README.md".data then .ok "/r/README.md".data
    else .error wEnoent
  readBytes := fun p =>
    if p = "/r/README.md".data then .ok [104, 105] else .error wEnoent

/-- The 20 bytes of "0123456789ABCDEFGHIJ". -/
def bytes20 : List Nat :=
  [48, 49, 50, 51, 52, 53, 54, 55, 56, 57, 65, 66, 67, 68, 69, 70, 71, 72, 73, 74]

/-- Root `/r` containing the regular file `a.txt` = "0123456789ABCDEFGHIJ". -/
def wFs4 : FsOps where
  realpath := fun p =>
    if p = "/r".data then .ok "/r".data
    else if p = "/r/a.txt".data then .ok "/r/a.txt".data
    else .error wEnoent
  readBytes := fun p => if p = "/r/a.txt".data then .ok bytes20 else .error wEnoent

/-- Root `/r` whose realpath resolves but where the target is missing. -/
def wFs9 : FsOps where
  realpath := fun p => if p = "/r".data then .ok "/r".data else .error wEnoent
  readBytes := fun _ => .error ⟨some "ENOENT".data, "ENOENT: no such file".data⟩

/-- Root `/r` where `sub/x` is a symlink whose real path is `/outside/x`. -/
def wFs2a : FsOps where
  realpath := fun p =>
    if p = "/r".data then .ok "/r".data
    else if p = "/r/sub/x".data then .ok "/outside/x".data
    else .error wEnoent
  readBytes := fun _ => .ok [104]

/-- A directory with a symlink entry `ln` and a file `a.txt`. -/
def wTree2 : FsTree :=
  .dcons "ln".data (.symlink "/etc".data)
    (.dcons "a.txt".data (.file [104]) .dnil)

/-- A directory listing `b.txt`, `a.txt`, `.env` in that readdir order. -/
def wTree5 : FsTree :=
  .dcons "b.txt".data (.file [98])
    (.dcons "a.txt".data (.file [97])
      (.dcons ".env".data (.file [115]) .dnil))

/-- The same directory enumerated in a different order. -/
def wTree5' : FsTree :=
  .dcons "a.txt".data (.file [97])
    (.dcons ".env".data (.file [115])
      (.dcons "b.txt".data (.file [98]) .dnil))

/-- Search scenario: `a.txt` has "foo" on line 3, `b.txt` on line 1. -/
def wTree6 : FsTree :=
  .dcons "b.txt".data (.file [102, 111, 111, 10])
    (.dcons "a.txt".data (.file [120, 10, 120, 10, 102, 111, 111]) .dnil)

/-- Byte contents of the two files of `wTree6`, addressed by absolute path
under root `/r`. -/
def wFs6 : FsOps where
  realpath := fun _ => .ok "/r".data
  readBytes := fun p =>
    if p = "/r/a.txt".data then .ok [120, 10, 120, 10, 102, 111, 111]
    else if p = "/r/b.txt".data then .ok [102, 111, 111, 10]
    else .error wEnoent


/-- Resolver image for the `wTree6` scenario. -/
def wA : JStr → JStr := fun rel => "/r/".data ++ rel

/-- Byte image for the `wTree6` scenario. -/
def wB : JStr → List Nat := fun rel =>
  if rel = "a.txt".data then [120, 10, 120, 10, 102, 111, 111] else [102, 111, 111, 10]

/-- Constructor tag of a tree node, with payloads for files and symlinks;
both directory forms collapse to `dnil`.  `TreePerm` preserves it. -/
def treeTag : FsTree → FsTree
  | .file bs => .file bs
  | .symlink t => .symlink t
  | .special => .special
  | .dnil => .dnil
  | .dcons _ _ _ => .dnil

/-! ### Order properties of the sort comparator -/

theorem listLexLe_total : ∀ a b : JStr, listLexLe a b = true ∨ listLexLe b a = true := by
  intro a
  induction a with
  | nil => intro b; left; rfl
  | cons x xs ih =>
    intro b
    cases b with
    | nil => right; rfl
    | cons y ys =>
      rcases lt_trichotomy x y with h | h | h
      · left; simp [listLexLe, h]
      · subst h
        rcases ih ys with h2 | h2
        · left; simp [listLexLe, h2]
        · right; simp [listLexLe, h2]
      · right; simp [listLexLe, h]

theorem listLexLe_trans :
    ∀ a b c : JStr, listLexLe a b = true → listLexLe b c = true → listLexLe a c = true := by
  intro a
  induction a with
  | nil => intro b c _ _; rfl
  | cons x xs ih =>
    intro b c hab hbc
    cases b with
    | nil => simp [listLexLe] at hab
    | cons y ys =>
      cases c with
      | nil => simp [listLexLe] at hbc
      | cons z zs =>
        by_cases hxy : x < y
        · by_cases hyz : y < z
          · simp [listLexLe, lt_trans hxy hyz]
          · by_cases hzy : z < y
            · simp [listLexLe, hyz, hzy] at hbc
            · have : y = z := le_antisymm (le_of_not_lt hzy) (le_of_not_lt hyz)
              subst this
              simp [listLexLe, hxy]
        · by_cases hyx : y < x
          · simp [listLexLe, hxy, hyx] at hab
          · have hxyeq : x = y := le_antisymm (le_of_not_lt hyx) (le_of_not_lt hxy)
            subst hxyeq
            simp only [listLexLe, if_neg (lt_irrefl x)] at hab
            by_cases hyz : x < z
            · simp [listLexLe, hyz]
            · by_cases hzy : z < x
              · simp [listLexLe, hyz, hzy] at hbc
              · have : x = z := le_antisymm (le_of_not_lt hzy) (le_of_not_lt hyz)
                subst this
                simp only [listLexLe, if_neg (lt_irrefl x)] at hbc ⊢
                exact ih ys zs hab hbc

theorem listLexLe_antisymm :
    ∀ a b : JStr, listLexLe a b = true → listLexLe b a = true → a = b := by
  intro a
  induction a with
  | nil =>
    intro b _ hba
    cases b with
    | nil => rfl
    | cons y ys => simp [listLexLe] at hba
  | cons x xs ih =>
    intro b hab hba
    cases b with
    | nil => simp [listLexLe] at hab
    | cons y ys =>
      by_cases hxy : x < y
      · simp [listLexLe, hxy, lt_asymm hxy] at hba
      · by_cases hyx : y < x
        · simp [listLexLe, hxy, hyx] at hab
        · have hxyeq : x = y := le_antisymm (le_of_not_lt hyx) (le_of_not_lt hxy)
          subst hxyeq
          simp only [listLexLe, if_neg (lt_irrefl x)] at hab hba
          rw [ih ys hab hba]

instance : IsTotal JStr strLeP := ⟨listLexLe_total⟩

instance : IsTrans JStr strLeP := ⟨listLexLe_trans⟩

instance : IsAntisymm JStr strLeP := ⟨listLexLe_antisymm⟩

theorem sortPaths_sorted (l : List JStr) : List.Sorted strLeP (sortPaths l) :=
  List.sorted_insertionSort strLeP l

theorem sortPaths_perm (l : List JStr) : (sortPaths l).Perm l :=
  List.perm_insertionSort strLeP l

/-! ### C1 -/

/-- C1: whenever the lexical resolution of the candidate `p` against the
root escapes it (the root-relative form starts with `..`, contains a `..`
segment, or is absolute — the `escapeCheck` of the shared resolver), the
internal resolution used by `readFile` and `searchText` fails with
`ToolDeniedError` reason "Path escapes target root", and `readFile`
returns no content for such a path, on every filesystem. -/
theorem claim_C1_lexical_escape (tool rootAbs p : JStr) (fs : FsOps) (maxBytes : Nat)
    (h : escapeCheck (pathRelative rootAbs (pathResolve rootAbs p)) = true) :
    resolveInsideRoot tool rootAbs p
      = .error (.denied tool p "Path escapes target root".data)
    ∧ readFileEffect fs rootAbs p maxBytes
      = .error (.denied "readFile".data p "Path escapes target root".data) := by
  have h1 : ∀ t : JStr, resolveInsideRoot t rootAbs p
      = .error (.denied t p "Path escapes target root".data) := by
    intro t
    simp [resolveInsideRoot, h]
  refine ⟨h1 tool, ?_⟩
  unfold readFileEffect
  rw [h1 "readFile".data]
  rfl

/-- Witness for C1 at root `/repo` and candidate `../../etc/passwd`. -/
theorem claim_C1_witness :
    escapeCheck (pathRelative "/repo".data (pathResolve "/repo".data "../../etc/passwd".data)) = true
    ∧ (resolveInsideRoot "searchText".data "/repo".data "../../etc/passwd".data
        = .error (.denied "searchText".data "../../etc/passwd".data "Path escapes target root".data)
      ∧ readFileEffect wFsDead "/repo".data "../../etc/passwd".data 20000
        = .error (.denied "readFile".data "../../etc/passwd".data "Path escapes target root".data)) :=
  ⟨rfl, claim_C1_lexical_escape "searchText".data "/repo".data "../../etc/passwd".data wFsDead 20000 rfl⟩

/-! ### C9 -/

/-- C9: if the candidate passes the lexical and deny-list checks but the
target's `realpath` fails with `ENOENT`, the realpath containment check is
skipped and `readFile` fails with the `ToolFsError` carrying the not-found
cause of the actual read, not with a `ToolDeniedError`. -/
theorem claim_C9_enoent_skips_realpath (fs : FsOps) (root p : JStr) (maxBytes : Nat)
    (r : Resolved) (rootReal : JStr) (e eRead : SysError)
    (h1 : resolveInsideRoot "readFile".data root p = .ok r)
    (h2 : fs.realpath root = .ok rootReal)
    (h3 : fs.realpath r.abs = .error e)
    (h4 : e.code = some "ENOENT".data)
    (h5 : fs.readBytes r.abs = .error eRead) :
    readFileEffect fs root p maxBytes
      = .error (.fsError "readFile".data eRead.message eRead) := by
  have hen : ensureRealpathInsideRoot "readFile".data (Except.ok rootReal)
      (Except.error e) r.rel = .ok () := by
    unfold ensureRealpathInsideRoot
    dsimp only
    rw [h4]
    simp
  unfold readFileEffect
  rw [h1]
  show (ensureRealpathInsideRoot "readFile".data (fs.realpath root)
      (fs.realpath r.abs) r.rel >>= fun _ => _) = _
  rw [h2, h3, hen]
  show (safeReadTextFile "readFile".data (fs.readBytes r.abs) maxBytes >>= fun _ => _) = _
  rw [h5]
  rfl

/-- Witness for C9: `/r` exists, `missing.txt` does not. -/
theorem claim_C9_witness :
    readFileEffect wFs9 "/r".data "missing.txt".data 20000
      = .error (.fsError "readFile".data "ENOENT: no such file".data
          ⟨some "ENOENT".data, "ENOENT: no such file".data⟩) :=
  claim_C9_enoent_skips_realpath wFs9 "/r".data "missing.txt".data 20000
    ⟨"/r/missing.txt".data, "missing.txt".data⟩ "/r".data wEnoent
    ⟨some "ENOENT".data, "ENOENT: no such file".data⟩ rfl rfl rfl rfl rfl

/-! ### C4 -/

/-- C4: for a readable regular file of `S` bytes and byte cap `m ≥ 1`,
`readFile` returns the UTF-8 decoding of exactly the first `m` bytes with
`truncated = true` when `S > m`, and the full content with
`truncated = false` when `S ≤ m`; concretely, reading the 20-byte file
`a.txt` = "0123456789ABCDEFGHIJ" with `maxBytes` 10 yields "0123456789",
truncated. -/
theorem claim_C4_truncation (fs : FsOps) (root p : JStr) (m : Nat) (r : Resolved)
    (buf : List Nat) (rootReal targetReal : JStr)
    (hm : 1 ≤ m)
    (h1 : resolveInsideRoot "readFile".data root p = .ok r)
    (h2 : fs.realpath root = .ok rootReal)
    (h3 : fs.realpath r.abs = .ok targetReal)
    (h4 : escapeCheck (pathRelative rootReal targetReal) = false)
    (h5 : fs.readBytes r.abs = .ok buf) :
    (buf.length > m →
      readFileEffect fs root p m = .ok ⟨root, r.rel, utf8Decode (buf.take m), true⟩)
    ∧ (buf.length ≤ m →
      readFileEffect fs root p m = .ok ⟨root, r.rel, utf8Decode buf, false⟩)
    ∧ readFileEffect wFs4 "/r".data "a.txt".data 10
        = .ok ⟨"/r".data, "a.txt".data, "0123456789".data, true⟩ := by
  have hen : ensureRealpathInsideRoot "readFile".data (Except.ok rootReal)
      (Except.ok targetReal) r.rel = .ok () := by
    unfold ensureRealpathInsideRoot
    dsimp only
    simp [h4]
  have hred : readFileEffect fs root p m
      = (safeReadTextFile "readFile".data (Except.ok buf) m
          >>= fun file => pure ⟨root, r.rel, file.content, file.truncated⟩) := by
    unfold readFileEffect
    rw [h1]
    show (ensureRealpathInsideRoot "readFile".data (fs.realpath root)
        (fs.realpath r.abs) r.rel >>= fun _ => _) = _
    rw [h2, h3, hen]
    show (safeReadTextFile "readFile".data (fs.readBytes r.abs) m >>= _) = _
    rw [h5]
  refine ⟨fun hgt => ?_, fun hle => ?_, rfl⟩
  · have hs : safeReadTextFile "readFile".data (Except.ok buf) m
        = .ok ⟨utf8Decode (buf.take m), true⟩ := by
      simp [safeReadTextFile, hgt]
    rw [hred, hs]
    rfl
  · have hs : safeReadTextFile "readFile".data (Except.ok buf) m
        = .ok ⟨utf8Decode buf, false⟩ := by
      simp [safeReadTextFile, not_lt.mpr hle]
    rw [hred, hs]
    rfl

/-- Witness for C4 on the concrete 20-byte scenario. -/
theorem claim_C4_witness :
    readFileEffect wFs4 "/r".data "a.txt".data 10
      = .ok ⟨"/r".data, "a.txt".data, utf8Decode (bytes20.take 10), true⟩ :=
  (claim_C4_truncation wFs4 "/r".data "a.txt".data 10
      ⟨"/r/a.txt".data, "a.txt".data⟩ bytes20 "/r".data "/r/a.txt".data
      (by decide) rfl rfl rfl rfl rfl).1 (by decide)

/-! ### C3 -/

/-- C3 counterexample: `node_modules/../README.md` contains a
`node_modules` segment, yet `readFile` returns content for it — lexical
resolution collapses the `..` before the deny list is consulted. -/
theorem claim_C3_counterexample :
    (splitChar '/' "node_modules/../README.md".data).contains "node_modules".data = true
    ∧ readFileEffect wFs3 "/r".data "node_modules/../README.md".data 100
      = .ok ⟨"/r".data, "README.md".data, "hi".data, false⟩ := ⟨rfl, rfl⟩

/-- C3 (amended): for every candidate path whose root-resolved relative
form is denied by the policy (a `.git`/`node_modules`/`output` segment, or
a basename that is `.env`/`.env.*`, `id_rsa`/`id_rsa.*`, `*.pem` or
`*.key`), `readFile` fails with a `ToolDeniedError`; and the `listFiles`
result never contains a path the policy denies. -/
theorem claim_C3_denylist (fs : FsOps) (root p : JStr) (m : Nat)
    (hd : (isDeniedRelPath (pathRelative root (pathResolve root p))).denied = true) :
    failsDenied (readFileEffect fs root p m)
    ∧ ∀ (enum : Except SysError (List JStr)) (maxF : Nat) (out : ListOut) (q : JStr),
        listFilesEffect enum root maxF = .ok out → q ∈ out.files →
        (isDeniedRelPath q).denied = false := by
  constructor
  · by_cases hesc : escapeCheck (pathRelative root (pathResolve root p)) = true
    · refine ⟨"readFile".data, p, "Path escapes target root".data, ?_⟩
      have hr : resolveInsideRoot "readFile".data root p
          = .error (.denied "readFile".data p "Path escapes target root".data) := by
        simp [resolveInsideRoot, hesc]
      unfold readFileEffect
      rw [hr]
      rfl
    · refine ⟨"readFile".data, pathRelative root (pathResolve root p),
        (isDeniedRelPath (pathRelative root (pathResolve root p))).reason.getD
          "Denied".data, ?_⟩
      have hr : resolveInsideRoot "readFile".data root p
          = .error (.denied "readFile".data (pathRelative root (pathResolve root p))
              ((isDeniedRelPath (pathRelative root (pathResolve root p))).reason.getD
                "Denied".data)) := by
        simp [resolveInsideRoot, hesc, hd]
      unfold readFileEffect
      rw [hr]
      rfl
  · intro enum maxF out q hok hq
    cases enum with
    | error e => simp [listFilesEffect] at hok
    | ok all =>
      simp only [listFilesEffect, Except.ok.injEq] at hok
      subst hok
      have hq1 : q ∈ sortPaths (all.filter fun rel => !(isDeniedRelPath rel).denied) :=
        List.take_subset _ _ hq
      have hq2 : q ∈ all.filter (fun rel => !(isDeniedRelPath rel).denied) :=
        (sortPaths_perm _).mem_iff.mp hq1
      simpa using (List.mem_filter.mp hq2).2

/-- Witness for C3: reading `.env` is denied on any filesystem, and the
allowed path `a.txt` is clean under the policy. -/
theorem claim_C3_witness :
    failsDenied (readFileEffect wFsDead "/r".data ".env".data 5)
    ∧ (isDeniedRelPath "a.txt".data).denied = false := by
  have h := claim_C3_denylist wFsDead "/r".data ".env".data 5 rfl
  exact ⟨h.1, h.2 (.ok (walkDir [] wTree5)) 400
    ⟨"/r".data, ["a.txt".data, "b.txt".data]⟩ "a.txt".data rfl (by simp)⟩

/-! ### C7 -/

/-- C7: `searchText` throws `ToolInputError` whenever `query` is missing,
not a string, or blank after trimming, and `readFile` does the same for
`path`, in both cases before any filesystem access (for every filesystem
and enumeration, with no event emitted); whereas an invalid optional cap is
never rejected: an invalid `listFiles` `max` is silently replaced by the
default 400, and an invalid `readFile` `maxBytes` by the default 20000. -/
theorem claim_C7_input_validation :
    (∀ (fs : FsOps) (enum : Except SysError (List JStr)) (root : JStr) (input : Json)
        (d : Nat), blankOrNonString (getField input "query".data) = true →
      searchTextExecute fs enum root input d
        = ([], .error (.inputError "searchText".data
            "Invalid input: expected \x7b query: string \x7d".data input)))
    ∧ (∀ (fs : FsOps) (root : JStr) (input : Json) (d : Nat),
        blankOrNonString (getField input "path".data) = true →
      readFileExecute fs root input d
        = ([], .error (.inputError "readFile".data
            "Invalid input: expected \x7b path: string \x7d".data input)))
    ∧ (∀ (enum : Except SysError (List JStr)) (root : JStr) (input : Json) (d : Nat),
        invalidCap (getField input "max".data) = true →
      listFilesExecute enum root input d
        = withToolLogging "listFiles".data
            (.obj [("max".data, .num (.finite (DEFAULT_MAX_FILES : Nat)))]) d
            (listFilesEffect enum root DEFAULT_MAX_FILES) listFilesSummary)
    ∧ (∀ (fs : FsOps) (root : JStr) (input : Json) (d : Nat) (p : JStr),
        getField input "path".data = some (.str p) → jsTrim p ≠ [] →
        invalidCap (getField input "maxBytes".data) = true →
      readFileExecute fs root input d
        = withToolLogging "readFile".data
            (.obj [("path".data, .str p),
              ("maxBytes".data, .num (.finite (DEFAULT_MAX_FILE_BYTES : Nat)))]) d
            (readFileEffect fs root p DEFAULT_MAX_FILE_BYTES) readFileSummary) := by
  have hcap : ∀ v, invalidCap v = true → coerceCap DEFAULT_MAX_FILES v = DEFAULT_MAX_FILES := by
    intro v hv
    cases v with
    | none => rfl
    | some j =>
      cases j with
      | num n =>
        cases n with
        | finite q =>
          simp only [invalidCap] at hv
          by_cases hq : 0 < q
          · simp [hq] at hv
          · simp [coerceCap, hq]
        | nan => rfl
        | inf => rfl
        | negInf => rfl
      | null => rfl
      | bool b => rfl
      | str s => rfl
      | arr l => rfl
      | obj o => rfl
  have hcap' : ∀ v, invalidCap v = true →
      coerceCap DEFAULT_MAX_FILE_BYTES v = DEFAULT_MAX_FILE_BYTES := by
    intro v hv
    cases v with
    | none => rfl
    | some j =>
      cases j with
      | num n =>
        cases n with
        | finite q =>
          simp only [invalidCap] at hv
          by_cases hq : 0 < q
          · simp [hq] at hv
          · simp [coerceCap, hq]
        | nan => rfl
        | inf => rfl
        | negInf => rfl
      | null => rfl
      | bool b => rfl
      | str s => rfl
      | arr l => rfl
      | obj o => rfl
  refine ⟨?_, ?_, ?_, ?_⟩
  · intro fs enum root input d h
    unfold searchTextExecute
    cases hv : getField input "query".data with
    | none => rfl
    | some v =>
      rw [hv] at h
      cases v with
      | str q =>
        have hq : jsTrim q = [] := by simpa [blankOrNonString] using h
        simp [hq]
      | null => rfl
      | bool b => rfl
      | num n => rfl
      | arr l => rfl
      | obj o => rfl
  · intro fs root input d h
    unfold readFileExecute
    cases hv : getField input "path".data with
    | none => rfl
    | some v =>
      rw [hv] at h
      cases v with
      | str q =>
        have hq : jsTrim q = [] := by simpa [blankOrNonString] using h
        simp [hq]
      | null => rfl
      | bool b => rfl
      | num n => rfl
      | arr l => rfl
      | obj o => rfl
  · intro enum root input d h
    unfold listFilesExecute
    rw [hcap _ h]
  · intro fs root input d p hp hnb h
    unfold readFileExecute
    rw [hp]
    dsimp only
    rw [if_neg hnb, hcap' _ h]

/-- Witness for C7: `searchText({})`, `readFile({})`, `listFiles({max:-5})`
and `readFile({path:"a.txt", maxBytes:-1})`. -/
theorem claim_C7_witness :
    searchTextExecute wFsDead (.ok []) "/r".data (.obj []) 3
      = ([], .error (.inputError "searchText".data
          "Invalid input: expected \x7b query: string \x7d".data (.obj [])))
    ∧ readFileExecute wFsDead "/r".data (.obj []) 3
      = ([], .error (.inputError "readFile".data
          "Invalid input: expected \x7b path: string \x7d".data (.obj [])))
    ∧ listFilesExecute (.ok []) "/r".data (.obj [("max".data, .num (.finite (-5)))]) 3
      = withToolLogging "listFiles".data
          (.obj [("max".data, .num (.finite (DEFAULT_MAX_FILES : Nat)))]) 3
          (listFilesEffect (.ok []) "/r".data DEFAULT_MAX_FILES) listFilesSummary
    ∧ readFileExecute wFs4 "/r".data
        (.obj [("path".data, .str "a.txt".data), ("maxBytes".data, .num (.finite (-1)))]) 3
      = withToolLogging "readFile".data
          (.obj [("path".data, .str "a.txt".data),
            ("maxBytes".data, .num (.finite (DEFAULT_MAX_FILE_BYTES : Nat)))]) 3
          (readFileEffect wFs4 "/r".data "a.txt".data DEFAULT_MAX_FILE_BYTES)
          readFileSummary := by
  have h := claim_C7_input_validation
  exact ⟨h.1 wFsDead (.ok []) "/r".data (.obj []) 3 rfl,
    h.2.1 wFsDead "/r".data (.obj []) 3 rfl,
    h.2.2.1 (.ok []) "/r".data (.obj [("max".data, .num (.finite (-5)))]) 3 (by decide),
    h.2.2.2 wFs4 "/r".data
      (.obj [("path".data, .str "a.txt".data), ("maxBytes".data, .num (.finite (-1)))]) 3
      "a.txt".data rfl (by decide) (by decide)⟩

/-! ### C8 -/

/-- C8 counterexample: the invocation `searchText({})` fails input
validation before the logging wrapper runs, so it emits no events at all —
in particular no `tool:start` — refuting the claim for such invocations. -/
theorem claim_C8_counterexample :
    searchTextExecute wFsDead (.ok []) "/r".data (.obj []) 7
      = ([], .error (.inputError "searchText".data
          "Invalid input: expected \x7b query: string \x7d".data (.obj []))) := rfl

/-- C8 (amended): every invocation that reaches the delegated operation —
always for `listFiles`, and for `searchText`/`readFile` whenever the input
passes validation — emits `tool:start` first and afterwards exactly one of
`tool:success` (with summary and duration) or `tool:error` (with cause and
duration), and the operation's outcome, in particular any failure, is
passed through identically; invocations rejected by validation throw
`ToolInputError` directly and emit no events. -/
theorem claim_C8_logging :
    (∀ (A : Type) (tool : JStr) (input : Json) (d : Nat)
        (eff : Except ToolError A) (outputSummary : A → Summary),
      withToolLogging tool input d eff outputSummary
        = ([ToolEvent.start tool input,
            match eff with
            | .ok a => ToolEvent.success tool d (outputSummary a)
            | .error e => ToolEvent.error tool d e], eff))
    ∧ (∀ (enum : Except SysError (List JStr)) (root : JStr) (input : Json) (d : Nat),
      listFilesExecute enum root input d
        = withToolLogging "listFiles".data
            (.obj [("max".data,
              .num (.finite (coerceCap DEFAULT_MAX_FILES (getField input "max".data))))])
            d
            (listFilesEffect enum root
              (coerceCap DEFAULT_MAX_FILES (getField input "max".data)))
            listFilesSummary)
    ∧ (∀ (fs : FsOps) (enum : Except SysError (List JStr)) (root : JStr) (input : Json)
        (d : Nat) (q : JStr),
        getField input "query".data = some (.str q) → jsTrim q ≠ [] →
      searchTextExecute fs enum root input d
        = withToolLogging "searchText".data
            (.obj [("query".data, .str q), ("maxMatches".data,
              .num (.finite (coerceCap DEFAULT_MAX_MATCHES
                (getField input "maxMatches".data))))]) d
            (searchTextEffect fs enum root q
              (coerceCap DEFAULT_MAX_MATCHES (getField input "maxMatches".data)))
            searchTextSummary)
    ∧ (∀ (fs : FsOps) (root : JStr) (input : Json) (d : Nat) (p : JStr),
        getField input "path".data = some (.str p) → jsTrim p ≠ [] →
      readFileExecute fs root input d
        = withToolLogging "readFile".data
            (.obj [("path".data, .str p), ("maxBytes".data,
              .num (.finite (coerceCap DEFAULT_MAX_FILE_BYTES
                (getField input "maxBytes".data))))]) d
            (readFileEffect fs root p
              (coerceCap DEFAULT_MAX_FILE_BYTES (getField input "maxBytes".data)))
            readFileSummary) := by
  refine ⟨?_, ?_, ?_, ?_⟩
  · intro A tool input d eff outputSummary
    cases eff with
    | ok a => rfl
    | error e => rfl
  · intro enum root input d
    rfl
  · intro fs enum root input d q hq hnb
    unfold searchTextExecute
    rw [hq]
    dsimp only
    rw [if_neg hnb]
  · intro fs root input d p hp hnb
    unfold readFileExecute
    rw [hp]
    dsimp only
    rw [if_neg hnb]

/-- Witness for C8 on a concrete valid `searchText` invocation. -/
theorem claim_C8_witness :
    withToolLogging "demo".data (.obj []) 5
        (Except.error (.denied "demo".data "p".data "r".data) : Except ToolError ListOut)
        listFilesSummary
      = ([ToolEvent.start "demo".data (.obj []),
          ToolEvent.error "demo".data 5 (.denied "demo".data "p".data "r".data)],
        .error (.denied "demo".data "p".data "r".data))
    ∧ searchTextExecute wFs6 (.ok (walkDir [] wTree6)) "/r".data
        (.obj [("query".data, .str "foo".data)]) 5
      = withToolLogging "searchText".data
          (.obj [("query".data, .str "foo".data),
            ("maxMatches".data, .num (.finite (DEFAULT_MAX_MATCHES : Nat)))]) 5
          (searchTextEffect wFs6 (.ok (walkDir [] wTree6)) "/r".data "foo".data
            DEFAULT_MAX_MATCHES) searchTextSummary := by
  have h := claim_C8_logging
  refine ⟨h.1 ListOut "demo".data (.obj []) 5 _ listFilesSummary, ?_⟩
  have h3 := h.2.2.1 wFs6 (.ok (walkDir [] wTree6)) "/r".data
    (.obj [("query".data, .str "foo".data)]) 5 "foo".data rfl (by decide)
  simpa using h3

/-! ### C10 -/

/-- C10: the `listFiles` execute entry point never throws a
`ToolInputError` for any JSON input: non-objects are coerced to the empty
object, a `max` that is not a finite number greater than zero falls back
to the default 400, valid fractional values are floored, and the only
possible failure is the `ToolFsError` produced from a failing directory
walk. -/
theorem claim_C10_listfiles_total :
    (∀ (enum : Except SysError (List JStr)) (root : JStr) (input : Json) (d : Nat),
      (∃ out, (listFilesExecute enum root input d).2 = .ok out)
      ∨ (∃ e, enum = .error e ∧ (listFilesExecute enum root input d).2
          = .error (.fsError "listFiles".data e.message e)))
    ∧ (∀ (enum : Except SysError (List JStr)) (root : JStr) (input : Json) (d : Nat),
        (∀ fields, input ≠ .obj fields) →
      listFilesExecute enum root input d = listFilesExecute enum root (.obj []) d)
    ∧ (∀ (enum : Except SysError (List JStr)) (root : JStr) (input : Json) (d : Nat),
        invalidCap (getField input "max".data) = true →
      listFilesExecute enum root input d = listFilesExecute enum root (.obj []) d)
    ∧ (∀ (enum : Except SysError (List JStr)) (root : JStr) (d : Nat) (q : Rat),
        0 < q →
      listFilesExecute enum root (.obj [("max".data, .num (.finite q))]) d
        = withToolLogging "listFiles".data
            (.obj [("max".data, .num (.finite (q.floor.toNat : Nat)))]) d
            (listFilesEffect enum root q.floor.toNat) listFilesSummary) := by
  have hobj : ∀ (input : Json), (∀ fields, input ≠ .obj fields) →
      getField input "max".data = none := by
    intro input hni
    cases input with
    | obj fields => exact absurd rfl (hni fields)
    | null => rfl
    | bool b => rfl
    | num n => rfl
    | str s => rfl
    | arr l => rfl
  have hcap : ∀ v, invalidCap v = true → coerceCap DEFAULT_MAX_FILES v = DEFAULT_MAX_FILES := by
    intro v hv
    cases v with
    | none => rfl
    | some j =>
      cases j with
      | num n =>
        cases n with
        | finite q =>
          simp only [invalidCap] at hv
          by_cases hq : 0 < q
          · simp [hq] at hv
          · simp [coerceCap, hq]
        | nan => rfl
        | inf => rfl
        | negInf => rfl
      | null => rfl
      | bool b => rfl
      | str s => rfl
      | arr l => rfl
      | obj o => rfl
  refine ⟨?_, ?_, ?_, ?_⟩
  · intro enum root input d
    cases enum with
    | ok all =>
      left
      exact ⟨_, rfl⟩
    | error e =>
      right
      exact ⟨e, rfl, rfl⟩
  · intro enum root input d hni
    unfold listFilesExecute
    rw [hobj input hni]
    rfl
  · intro enum root input d hv
    unfold listFilesExecute
    rw [hcap _ hv]
    rfl
  · intro enum root d q hq
    unfold listFilesExecute
    have : coerceCap DEFAULT_MAX_FILES
        (getField (.obj [("max".data, .num (.finite q))]) "max".data) = q.floor.toNat := by
      simp [getField, coerceCap, hq]
    rw [this]

/-- Witness for C10: a string input, `{max: -5}`, and `{max: 5/2}`. -/
theorem claim_C10_witness :
    (∃ out, (listFilesExecute (.ok []) "/r".data (.str "x".data) 2).2 = .ok out)
    ∧ listFilesExecute (.ok []) "/r".data (.str "x".data) 2
      = listFilesExecute (.ok []) "/r".data (.obj []) 2
    ∧ listFilesExecute (.ok []) "/r".data (.obj [("max".data, .num (.finite (-5)))]) 2
      = listFilesExecute (.ok []) "/r".data (.obj []) 2
    ∧ listFilesExecute (.ok []) "/r".data (.obj [("max".data, .num (.finite (mkRat 5 2)))]) 2
      = withToolLogging "listFiles".data
          (.obj [("max".data, .num (.finite ((mkRat 5 2).floor.toNat : Nat)))]) 2
          (listFilesEffect (.ok []) "/r".data (mkRat 5 2).floor.toNat) listFilesSummary := by
  have h := claim_C10_listfiles_total
  refine ⟨?_, ?_, ?_, ?_⟩
  · rcases h.1 (.ok []) "/r".data (.str "x".data) 2 with ⟨out, hout⟩ | ⟨e, he, _⟩
    · exact ⟨out, hout⟩
    · exact Except.noConfusion he
  · exact h.2.1 (.ok []) "/r".data (.str "x".data) 2 (fun fields h => Json.noConfusion h)
  · exact h.2.2.1 (.ok []) "/r".data (.obj [("max".data, .num (.finite (-5)))]) 2 (by decide)
  · exact h.2.2.2 (.ok []) "/r".data 2 (mkRat 5 2) (by decide)

/-! ### C5 -/

theorem treePerm_refl : ∀ t : FsTree, TreePerm t t := by
  intro t
  induction t with
  | file bs => exact .file bs
  | symlink s => exact .symlink s
  | special => exact .special
  | dnil => exact .dnil
  | dcons name node rest ihn ihr => exact .dcons name ihn ihr

theorem treePerm_tag {a b : FsTree} (h : TreePerm a b) : treeTag a = treeTag b := by
  induction h with
  | file bs => rfl
  | symlink t => rfl
  | special => rfl
  | dnil => rfl
  | dcons name hxy hrest ihxy ihrest => rfl
  | swap n m x y rest => rfl
  | trans hab hbc ihab ihbc => exact ihab.trans ihbc

/-- Reduce the per-entry walk contribution when the node is directory-like. -/
theorem walk_entry_dir (segs : List JStr) (name : JStr) (x : FsTree)
    (hx : x = .dnil ∨ ∃ n a r, x = .dcons n a r) :
    (match x with
      | FsTree.symlink _ => ([] : List JStr)
      | FsTree.file _ => [joinSegs (segs ++ [name])]
      | FsTree.special => []
      | d => walkDir (segs ++ [name]) d) = walkDir (segs ++ [name]) x := by
  rcases hx with h | ⟨n, a, r, h⟩ <;> subst h <;> rfl

theorem walkDir_dcons (segs : List JStr) (name : JStr) (x rest : FsTree) :
    walkDir segs (.dcons name x rest)
      = (if SKIP_DIRS.contains name then []
         else match x with
           | FsTree.symlink _ => []
           | FsTree.file _ => [joinSegs (segs ++ [name])]
           | FsTree.special => []
           | d => walkDir (segs ++ [name]) d) ++ walkDir segs rest := by
  cases x <;> rfl

theorem treePerm_walk {a b : FsTree} (h : TreePerm a b) :
    ∀ segs, (walkDir segs a).Perm (walkDir segs b) := by
  induction h with
  | file bs => intro segs; exact .refl _
  | symlink t => intro segs; exact .refl _
  | special => intro segs; exact .refl _
  | dnil => intro segs; exact .refl _
  | @dcons name x y rest rest' hxy hrest ihxy ihrest =>
    intro segs
    have htag := treePerm_tag hxy
    rw [walkDir_dcons segs name x rest, walkDir_dcons segs name y rest']
    by_cases hskip : SKIP_DIRS.contains name = true
    · rw [if_pos hskip, if_pos hskip]
      simpa using ihrest segs
    · rw [if_neg hskip, if_neg hskip]
      cases x <;> cases y <;> simp only [treeTag, FsTree.file.injEq,
          FsTree.symlink.injEq] at htag <;> try subst htag
      all_goals first
        | exact List.Perm.append_left _ (ihrest segs)
        | exact List.Perm.append (ihxy (segs ++ [name])) (ihrest segs)
        | simp at htag
  | swap n m x y rest =>
    intro segs
    simp only [walkDir_dcons]
    exact List.perm_append_comm_assoc _ _ _
  | trans hab hbc ihab ihbc =>
    intro segs
    exact (ihab segs).trans (ihbc segs)

/-- C5: the `listFiles` file list is lexicographically sorted; it consists
of allowed walked paths; its length is the allowed count capped at `max`
(sort-then-cap: every listed path precedes every allowed path left out);
and it is invariant under the filesystem's enumeration order. -/
theorem claim_C5_sorted_listing (t : FsTree) (root : JStr) (maxF : Nat) (out : ListOut)
    (h : listFilesEffect (.ok (walkDir [] t)) root maxF = .ok out) :
    List.Sorted strLeP out.files
    ∧ (∀ p ∈ out.files, p ∈ walkDir [] t ∧ (isDeniedRelPath p).denied = false)
    ∧ out.files.length
        = min maxF ((walkDir [] t).filter (fun r => !(isDeniedRelPath r).denied)).length
    ∧ (∀ p ∈ out.files, ∀ q ∈ (walkDir [] t).filter (fun r => !(isDeniedRelPath r).denied),
        q ∉ out.files → strLeP p q)
    ∧ (∀ t', TreePerm t t' →
        listFilesEffect (.ok (walkDir [] t')) root maxF = .ok out) := by
  simp only [listFilesEffect, Except.ok.injEq] at h
  subst h
  dsimp only
  refine ⟨?_, ?_, ?_, ?_, ?_⟩
  · exact (sortPaths_sorted _).sublist (List.take_sublist _ _)
  · intro p hp
    have hp1 : p ∈ sortPaths ((walkDir [] t).filter fun r => !(isDeniedRelPath r).denied) :=
      List.take_subset _ _ hp
    have hp2 := (sortPaths_perm _).mem_iff.mp hp1
    have := List.mem_filter.mp hp2
    exact ⟨this.1, by simpa using this.2⟩
  · simp [List.length_take, (sortPaths_perm _).length_eq]
  · intro p hp q hq hnq
    have hq1 : q ∈ sortPaths ((walkDir [] t).filter fun r => !(isDeniedRelPath r).denied) :=
      (sortPaths_perm _).mem_iff.mpr hq
    rw [← List.take_append_drop maxF
      (sortPaths ((walkDir [] t).filter fun r => !(isDeniedRelPath r).denied))] at hq1
    rcases List.mem_append.mp hq1 with hmem | hmem
    · exact absurd hmem hnq
    · exact (sortPaths_sorted _).rel_of_mem_take_of_mem_drop hp hmem
  · intro t' hperm
    have hw : (walkDir [] t).Perm (walkDir [] t') := treePerm_walk hperm []
    have hfilter := hw.filter (fun r => !(isDeniedRelPath r).denied)
    have hsorteq : sortPaths ((walkDir [] t).filter fun r => !(isDeniedRelPath r).denied)
        = sortPaths ((walkDir [] t').filter fun r => !(isDeniedRelPath r).denied) :=
      List.eq_of_perm_of_sorted
        (((sortPaths_perm _).trans hfilter).trans (sortPaths_perm _).symm)
        (sortPaths_sorted _) (sortPaths_sorted _)
    simp only [listFilesEffect, Except.ok.injEq]
    rw [← hsorteq]

/-- Witness for C5: the three-entry directory enumerated in two different
orders yields the identical sorted listing. -/
theorem claim_C5_witness :
    List.Sorted strLeP ["a.txt".data, "b.txt".data]
    ∧ listFilesEffect (.ok (walkDir [] wTree5')) "/r".data 400
      = .ok ⟨"/r".data, ["a.txt".data, "b.txt".data]⟩ := by
  have hperm : TreePerm wTree5 wTree5' :=
    TreePerm.trans
      (TreePerm.swap "b.txt".data "a.txt".data (.file [98]) (.file [97])
        (.dcons ".env".data (.file [115]) .dnil))
      (TreePerm.dcons "a.txt".data (treePerm_refl _)
        (TreePerm.swap "b.txt".data ".env".data (.file [98]) (.file [115]) .dnil))
  have h := claim_C5_sorted_listing wTree5 "/r".data 400
    ⟨"/r".data, ["a.txt".data, "b.txt".data]⟩ rfl
  exact ⟨h.1, h.2.2.2.2 wTree5' hperm⟩

/-! ### C2: symlink containment -/

theorem walkSegs_dcons (segs : List JStr) (name : JStr) (x rest : FsTree) :
    walkSegs segs (.dcons name x rest)
      = (if SKIP_DIRS.contains name then []
         else match x with
           | FsTree.symlink _ => []
           | FsTree.file _ => [segs ++ [name]]
           | FsTree.special => []
           | d => walkSegs (segs ++ [name]) d) ++ walkSegs segs rest := by
  cases x <;> rfl

theorem symlinkPrefixes_dcons (segs : List JStr) (name : JStr) (x rest : FsTree) :
    symlinkPrefixes segs (.dcons name x rest)
      = (match x with
         | FsTree.symlink _ => [segs ++ [name]]
         | FsTree.file _ => []
         | FsTree.special => []
         | d => symlinkPrefixes (segs ++ [name]) d)
        ++ symlinkPrefixes segs rest := by
  cases x <;> rfl

/-- Every collected walk path extends the base by a name of the spine. -/
theorem walkSegs_shape : ∀ (t : FsTree) (segs sl : List JStr),
    sl ∈ walkSegs segs t → ∃ m r, sl = segs ++ m :: r ∧ m ∈ dirNames t := by
  intro t
  induction t with
  | file bs => intro segs sl h; simp [walkSegs] at h
  | symlink s => intro segs sl h; simp [walkSegs] at h
  | special => intro segs sl h; simp [walkSegs] at h
  | dnil => intro segs sl h; simp [walkSegs] at h
  | dcons name node rest ihn ihr =>
    intro segs sl h
    rw [walkSegs_dcons] at h
    rcases List.mem_append.mp h with hc | hc
    · by_cases hskip : SKIP_DIRS.contains name = true
      · rw [if_pos hskip] at hc
        simp at hc
      · rw [if_neg hskip] at hc
        cases node with
        | symlink s => simp at hc
        | special => simp at hc
        | file bs =>
          simp only [List.mem_singleton] at hc
          exact ⟨name, [], by simpa using hc, by simp [dirNames]⟩
        | dnil =>
          simp [walkSegs] at hc
        | dcons n2 x2 r2 =>
          obtain ⟨m, r, hdec, _⟩ := ihn (segs ++ [name]) sl hc
          exact ⟨name, m :: r, by simpa using hdec, by simp [dirNames]⟩
    · obtain ⟨m, r, hdec, hmem⟩ := ihr segs sl hc
      exact ⟨m, r, hdec, by simp [dirNames, hmem]⟩

/-- Every symlink position extends the base by a name of the spine. -/
theorem symlinkPrefixes_shape : ∀ (t : FsTree) (segs sp : List JStr),
    sp ∈ symlinkPrefixes segs t → ∃ m r, sp = segs ++ m :: r ∧ m ∈ dirNames t := by
  intro t
  induction t with
  | file bs => intro segs sp h; simp [symlinkPrefixes] at h
  | symlink s => intro segs sp h; simp [symlinkPrefixes] at h
  | special => intro segs sp h; simp [symlinkPrefixes] at h
  | dnil => intro segs sp h; simp [symlinkPrefixes] at h
  | dcons name node rest ihn ihr =>
    intro segs sp h
    rw [symlinkPrefixes_dcons] at h
    rcases List.mem_append.mp h with hc | hc
    · cases node with
      | symlink s =>
        simp only [List.mem_singleton] at hc
        exact ⟨name, [], by simpa using hc, by simp [dirNames]⟩
      | special => simp at hc
      | file bs => simp at hc
      | dnil => simp [symlinkPrefixes] at hc
      | dcons n2 x2 r2 =>
        obtain ⟨m, r, hdec, _⟩ := ihn (segs ++ [name]) sp hc
        exact ⟨name, m :: r, by simpa using hdec, by simp [dirNames]⟩
    · obtain ⟨m, r, hdec, hmem⟩ := ihr segs sp hc
      exact ⟨m, r, hdec, by simp [dirNames, hmem]⟩

/-- The walk never collects a path at or beneath a symlink position
(segment form). -/
theorem walkSegs_avoid_symlinks : ∀ (t : FsTree) (segs : List JStr),
    wfTree t = true →
    ∀ sp ∈ symlinkPrefixes segs t, ∀ sl ∈ walkSegs segs t, ¬ sp <+: sl := by
  intro t
  induction t with
  | file bs => intro segs _ sp hsp; simp [symlinkPrefixes] at hsp
  | symlink s => intro segs _ sp hsp; simp [symlinkPrefixes] at hsp
  | special => intro segs _ sp hsp; simp [symlinkPrefixes] at hsp
  | dnil => intro segs _ sp hsp; simp [symlinkPrefixes] at hsp
  | dcons name node rest ihn ihr =>
    intro segs hwf sp hsp sl hsl hpre
    have hwf' : ((goodName name = true ∧ name ∉ dirNames rest) ∧ wfTree node = true)
        ∧ wfTree rest = true := by
      simpa [wfTree, Bool.and_eq_true, Bool.not_eq_true'] using hwf
    have hnamefresh : name ∉ dirNames rest := hwf'.1.1.2
    rw [symlinkPrefixes_dcons] at hsp
    rw [walkSegs_dcons] at hsl
    rcases List.mem_append.mp hsp with hspc | hspc <;>
      rcases List.mem_append.mp hsl with hslc | hslc
    · -- both under the head entry
      by_cases hskip : SKIP_DIRS.contains name = true
      · rw [if_pos hskip] at hslc; simp at hslc
      · rw [if_neg hskip] at hslc
        cases node with
        | symlink s => simp at hslc
        | special => simp at hslc
        | file bs => simp at hspc
        | dnil => simp [walkSegs] at hslc
        | dcons n2 x2 r2 =>
          exact ihn (segs ++ [name]) hwf'.1.2 sp hspc sl hslc hpre
    · -- sp under the head entry, sl from the rest of the spine
      have hsp_ext : segs ++ [name] <+: sp := by
        cases node with
        | symlink s =>
          simp only [List.mem_singleton] at hspc
          exact hspc ▸ List.prefix_refl _
        | special => simp at hspc
        | file bs => simp at hspc
        | dnil => simp [symlinkPrefixes] at hspc
        | dcons n2 x2 r2 =>
          obtain ⟨m, r, hdec, _⟩ := symlinkPrefixes_shape _ _ _ hspc
          exact hdec ▸ ⟨m :: r, by simp⟩
      obtain ⟨m, r, hdec, hmem⟩ := walkSegs_shape rest segs sl hslc
      have : segs ++ [name] <+: segs ++ m :: r := hdec ▸ hsp_ext.trans hpre
      have hname_eq : name = m := by
        have h2 := (List.prefix_append_right_inj segs).mp this
        exact (List.cons_prefix_cons.mp h2).1
      exact hnamefresh (hname_eq ▸ hmem)
    · -- sl under the head entry, sp from the rest of the spine
      obtain ⟨m, r, hdec, hmem⟩ := symlinkPrefixes_shape rest segs sp hspc
      have hsl_ext : ∃ r', sl = segs ++ name :: r' := by
        by_cases hskip : SKIP_DIRS.contains name = true
        · rw [if_pos hskip] at hslc; simp at hslc
        · rw [if_neg hskip] at hslc
          cases node with
          | symlink s => simp at hslc
          | special => simp at hslc
          | file bs =>
            simp only [List.mem_singleton] at hslc
            exact ⟨[], by simpa using hslc⟩
          | dnil => simp [walkSegs] at hslc
          | dcons n2 x2 r2 =>
            obtain ⟨m2, r2', hdec2, _⟩ := walkSegs_shape _ _ _ hslc
            exact ⟨m2 :: r2', by simpa using hdec2⟩
      obtain ⟨r', hslr⟩ := hsl_ext
      rw [hdec, hslr] at hpre
      have h2 := (List.prefix_append_right_inj segs).mp hpre
      have : m = name := (List.cons_prefix_cons.mp h2).1
      exact hnamefresh (this ▸ hmem)
    · exact ihr segs hwf'.2 sp hspc sl hslc hpre

theorem goodName_ne_nil {n : JStr} (h : goodName n = true) : n ≠ [] := by
  simp [goodName, Bool.and_eq_true] at h
  exact h.1.1.1

theorem goodName_no_slash {n : JStr} (h : goodName n = true) : '/' ∉ n := by
  simp [goodName, Bool.and_eq_true] at h
  exact h.1.1.2

/-- Splitting a list at a distinguished separator element is unambiguous. -/
theorem sep_inj (c : Char) : ∀ (u v s t : List Char), c ∉ u → c ∉ v →
    u ++ c :: s <+: v ++ c :: t → u = v ∧ s <+: t := by
  intro u
  induction u with
  | nil =>
    intro v s t _ hv h
    cases v with
    | nil =>
      exact ⟨rfl, (List.cons_prefix_cons.mp h).2⟩
    | cons w v' =>
      have := (List.cons_prefix_cons.mp h).1
      exact absurd (this ▸ List.mem_cons_self w v') hv
  | cons a u' ih =>
    intro v s t hu hv h
    cases v with
    | nil =>
      have := (List.cons_prefix_cons.mp h).1
      exact absurd (this ▸ List.mem_cons_self a u') hu
    | cons b v' =>
      rcases List.cons_prefix_cons.mp h with ⟨hab, htail⟩
      obtain ⟨hu', hst⟩ := ih v' s t (fun hm => hu (List.mem_cons_of_mem a hm))
        (fun hm => hv (List.mem_cons_of_mem b hm)) htail
      exact ⟨by rw [hab, hu'], hst⟩

theorem joinSegs_cons (x : JStr) (a : List JStr) (ha : a ≠ []) :
    joinSegs (x :: a) = x ++ '/' :: joinSegs a := by
  cases a with
  | nil => exact absurd rfl ha
  | cons y r => rfl

/-- `joinSegs` reflects prefixes across a `/` boundary (for well-formed
names). -/
theorem joinSegs_sep_pre : ∀ (a b : List JStr), a ≠ [] → b ≠ [] →
    (∀ n ∈ a, goodName n = true) → (∀ n ∈ b, goodName n = true) →
    joinSegs a ++ ['/'] <+: joinSegs b → a <+: b := by
  intro a
  induction a with
  | nil => intro b ha; exact absurd rfl ha
  | cons x a' ih =>
    intro b _ hb hga hgb h
    have hgx := hga x (List.mem_cons_self _ _)
    cases b with
    | nil => exact absurd rfl hb
    | cons y b' =>
      have hgy := hgb y (List.mem_cons_self _ _)
      cases b' with
      | nil =>
        have hslash : '/' ∈ y := by
          cases a' with
          | nil =>
            have h' : x ++ '/' :: [] <+: y := by simpa [joinSegs] using h
            exact h'.subset (by simp)
          | cons z a'' =>
            have h' : x ++ '/' :: (joinSegs (z :: a'') ++ ['/']) <+: y := by
              have h2 := h
              rw [joinSegs_cons x (z :: a'') (by simp)] at h2
              simpa [List.append_assoc] using h2
            exact h'.subset (by simp)
        exact absurd hslash (goodName_no_slash hgy)
      | cons w b'' =>
        rw [joinSegs_cons y (w :: b'') (by simp)] at h
        cases a' with
        | nil =>
          have h' : x ++ '/' :: [] <+: y ++ '/' :: joinSegs (w :: b'') := by
            simpa [joinSegs] using h
          obtain ⟨hxy, _⟩ := sep_inj '/' x y [] (joinSegs (w :: b''))
            (goodName_no_slash hgx) (goodName_no_slash hgy) h'
          exact hxy ▸ List.cons_prefix_cons.mpr ⟨rfl, List.nil_prefix⟩
        | cons z a'' =>
          have h' : x ++ '/' :: (joinSegs (z :: a'') ++ ['/'])
              <+: y ++ '/' :: joinSegs (w :: b'') := by
            have h2 := h
            rw [joinSegs_cons x (z :: a'') (by simp)] at h2
            simpa [List.append_assoc] using h2
          obtain ⟨hxy, htail⟩ := sep_inj '/' x y (joinSegs (z :: a'') ++ ['/'])
            (joinSegs (w :: b'')) (goodName_no_slash hgx) (goodName_no_slash hgy) h'
          have hrec := ih (w :: b'') (by simp) (by simp)
            (fun n hn => hga n (List.mem_cons_of_mem x hn))
            (fun n hn => hgb n (List.mem_cons_of_mem y hn)) htail
          exact hxy ▸ List.cons_prefix_cons.mpr ⟨rfl, hrec⟩

/-- `joinSegs` is injective on lists of well-formed names. -/
theorem joinSegs_inj : ∀ (a b : List JStr),
    (∀ n ∈ a, goodName n = true) → (∀ n ∈ b, goodName n = true) →
    joinSegs a = joinSegs b → a = b := by
  intro a
  induction a with
  | nil =>
    intro b _ hgb h
    cases b with
    | nil => rfl
    | cons y b' =>
      have hgy := hgb y (List.mem_cons_self _ _)
      cases b' with
      | nil => exact absurd (show y = [] from h.symm) (goodName_ne_nil hgy)
      | cons w b'' =>
        rw [joinSegs_cons y (w :: b'') (by simp)] at h
        have h2 := List.append_eq_nil.mp h.symm
        simp at h2
  | cons x a' ih =>
    intro b hga hgb h
    have hgx := hga x (List.mem_cons_self _ _)
    cases b with
    | nil =>
      cases a' with
      | nil => exact absurd (show x = [] from h) (goodName_ne_nil hgx)
      | cons z a'' =>
        rw [joinSegs_cons x (z :: a'') (by simp)] at h
        have h2 := List.append_eq_nil.mp h
        simp at h2
    | cons y b' =>
      have hgy := hgb y (List.mem_cons_self _ _)
      cases a' with
      | nil =>
        cases b' with
        | nil =>
          have hxy : x = y := h
          rw [hxy]
        | cons w b'' =>
          rw [joinSegs_cons y (w :: b'') (by simp)] at h
          have hslash : '/' ∈ x := by
            rw [show joinSegs [x] = x from rfl] at h
            rw [h]
            exact List.mem_append_right y (by simp)
          exact absurd hslash (goodName_no_slash hgx)
      | cons z a'' =>
        cases b' with
        | nil =>
          rw [joinSegs_cons x (z :: a'') (by simp)] at h
          have hslash : '/' ∈ y := by
            rw [show joinSegs [y] = y from rfl] at h
            rw [← h]
            exact List.mem_append_right x (by simp)
          exact absurd hslash (goodName_no_slash hgy)
        | cons w b'' =>
          rw [joinSegs_cons x (z :: a'') (by simp),
            joinSegs_cons y (w :: b'') (by simp)] at h
          have hpre : x ++ '/' :: joinSegs (z :: a'')
              <+: y ++ '/' :: joinSegs (w :: b'') := by rw [h]
          obtain ⟨hxy, _⟩ := sep_inj '/' x y (joinSegs (z :: a'')) (joinSegs (w :: b''))
            (goodName_no_slash hgx) (goodName_no_slash hgy) hpre
          subst hxy
          have htl : joinSegs (z :: a'') = joinSegs (w :: b'') :=
            (List.cons.inj (List.append_cancel_left h)).2
          rw [ih (w :: b'') (fun n hn => hga n (List.mem_cons_of_mem x hn))
            (fun n hn => hgb n (List.mem_cons_of_mem x hn)) htl]

theorem walkDir_eq_map_join : ∀ (t : FsTree) (segs : List JStr),
    walkDir segs t = (walkSegs segs t).map joinSegs := by
  intro t
  induction t with
  | file bs => intro segs; rfl
  | symlink s => intro segs; rfl
  | special => intro segs; rfl
  | dnil => intro segs; rfl
  | dcons name node rest ihn ihr =>
    intro segs
    rw [walkDir_dcons, walkSegs_dcons, List.map_append]
    congr 1
    · by_cases hskip : SKIP_DIRS.contains name = true
      · rw [if_pos hskip, if_pos hskip]; rfl
      · rw [if_neg hskip, if_neg hskip]
        cases node with
        | symlink s => rfl
        | special => rfl
        | file bs => rfl
        | dnil => exact ihn (segs ++ [name])
        | dcons n2 x2 r2 => exact ihn (segs ++ [name])
    · exact ihr segs

theorem walkSegs_good : ∀ (t : FsTree) (segs : List JStr),
    wfTree t = true → (∀ n ∈ segs, goodName n = true) →
    ∀ sl ∈ walkSegs segs t, ∀ n ∈ sl, goodName n = true := by
  intro t
  induction t with
  | file bs => intro segs _ _ sl hsl; simp [walkSegs] at hsl
  | symlink s => intro segs _ _ sl hsl; simp [walkSegs] at hsl
  | special => intro segs _ _ sl hsl; simp [walkSegs] at hsl
  | dnil => intro segs _ _ sl hsl; simp [walkSegs] at hsl
  | dcons name node rest ihn ihr =>
    intro segs hwf hsegs sl hsl
    have hwf' : ((goodName name = true ∧ name ∉ dirNames rest) ∧ wfTree node = true)
        ∧ wfTree rest = true := by
      simpa [wfTree, Bool.and_eq_true, Bool.not_eq_true'] using hwf
    have hsegs' : ∀ n ∈ segs ++ [name], goodName n = true := by
      intro n hn
      rcases List.mem_append.mp hn with hn | hn
      · exact hsegs n hn
      · rw [List.mem_singleton.mp hn]; exact hwf'.1.1.1
    rw [walkSegs_dcons] at hsl
    rcases List.mem_append.mp hsl with hc | hc
    · by_cases hskip : SKIP_DIRS.contains name = true
      · rw [if_pos hskip] at hc; simp at hc
      · rw [if_neg hskip] at hc
        cases node with
        | symlink s => simp at hc
        | special => simp at hc
        | file bs =>
          rw [List.mem_singleton.mp hc]
          exact hsegs'
        | dnil => simp [walkSegs] at hc
        | dcons n2 x2 r2 => exact ihn (segs ++ [name]) hwf'.1.2 hsegs' sl hc
    · exact ihr segs hwf'.2 hsegs sl hc

theorem symlinkPrefixes_good : ∀ (t : FsTree) (segs : List JStr),
    wfTree t = true → (∀ n ∈ segs, goodName n = true) →
    ∀ sp ∈ symlinkPrefixes segs t, ∀ n ∈ sp, goodName n = true := by
  intro t
  induction t with
  | file bs => intro segs _ _ sp hsp; simp [symlinkPrefixes] at hsp
  | symlink s => intro segs _ _ sp hsp; simp [symlinkPrefixes] at hsp
  | special => intro segs _ _ sp hsp; simp [symlinkPrefixes] at hsp
  | dnil => intro segs _ _ sp hsp; simp [symlinkPrefixes] at hsp
  | dcons name node rest ihn ihr =>
    intro segs hwf hsegs sp hsp
    have hwf' : ((goodName name = true ∧ name ∉ dirNames rest) ∧ wfTree node = true)
        ∧ wfTree rest = true := by
      simpa [wfTree, Bool.and_eq_true, Bool.not_eq_true'] using hwf
    have hsegs' : ∀ n ∈ segs ++ [name], goodName n = true := by
      intro n hn
      rcases List.mem_append.mp hn with hn | hn
      · exact hsegs n hn
      · rw [List.mem_singleton.mp hn]; exact hwf'.1.1.1
    rw [symlinkPrefixes_dcons] at hsp
    rcases List.mem_append.mp hsp with hc | hc
    · cases node with
      | symlink s =>
        rw [List.mem_singleton.mp hc]
        exact hsegs'
      | special => simp at hc
      | file bs => simp at hc
      | dnil => simp [symlinkPrefixes] at hc
      | dcons n2 x2 r2 => exact ihn (segs ++ [name]) hwf'.1.2 hsegs' sp hc
    · exact ihr segs hwf'.2 hsegs sp hc

/-- C2: a path that is lexically inside the root but whose symlink-resolved
real path escapes the real root makes `readFile` fail with
`ToolDeniedError` reason "Path resolves outside target root"; and
`listFiles` of a well-formed tree never returns any path at or beneath a
symbolic-link directory entry, because the walk skips every symlink. -/
theorem claim_C2_symlink_containment :
    (∀ (fs : FsOps) (root p : JStr) (m : Nat) (r : Resolved) (rootReal targetReal : JStr),
      resolveInsideRoot "readFile".data root p = .ok r →
      fs.realpath root = .ok rootReal →
      fs.realpath r.abs = .ok targetReal →
      escapeCheck (pathRelative rootReal targetReal) = true →
      readFileEffect fs root p m
        = .error (.denied "readFile".data r.rel "Path resolves outside target root".data))
    ∧ (∀ (t : FsTree) (root : JStr) (maxF : Nat) (out : ListOut) (sp : List JStr)
        (q : JStr),
      wfTree t = true → sp ∈ symlinkPrefixes [] t →
      listFilesEffect (.ok (walkDir [] t)) root maxF = .ok out → q ∈ out.files →
      isUnder (joinSegs sp) q = false) := by
  constructor
  · intro fs root p m r rootReal targetReal h1 h2 h3 h4
    have hen : ensureRealpathInsideRoot "readFile".data (Except.ok rootReal)
        (Except.ok targetReal) r.rel
        = .error (.denied "readFile".data r.rel
            "Path resolves outside target root".data) := by
      unfold ensureRealpathInsideRoot
      dsimp only
      simp [h4]
    unfold readFileEffect
    rw [h1]
    show (ensureRealpathInsideRoot "readFile".data (fs.realpath root)
        (fs.realpath r.abs) r.rel >>= fun _ => _) = _
    rw [h2, h3, hen]
    rfl
  · intro t root maxF out sp q hwf hsp heff hq
    simp only [listFilesEffect, Except.ok.injEq] at heff
    subst heff
    dsimp only at hq
    have hq1 : q ∈ sortPaths ((walkDir [] t).filter fun rel => !(isDeniedRelPath rel).denied) :=
      List.take_subset _ _ hq
    have hq2 : q ∈ (walkDir [] t).filter (fun rel => !(isDeniedRelPath rel).denied) :=
      (sortPaths_perm _).mem_iff.mp hq1
    have hq3 : q ∈ walkDir [] t := (List.mem_filter.mp hq2).1
    rw [walkDir_eq_map_join] at hq3
    obtain ⟨sl, hsl, hjoin⟩ := List.mem_map.mp hq3
    have hgood_sl : ∀ n ∈ sl, goodName n = true :=
      walkSegs_good t [] hwf (by simp) sl hsl
    have hgood_sp : ∀ n ∈ sp, goodName n = true :=
      symlinkPrefixes_good t [] hwf (by simp) sp hsp
    have hmain := walkSegs_avoid_symlinks t [] hwf sp hsp sl hsl
    obtain ⟨msp, rsp, hspdec, _⟩ := symlinkPrefixes_shape t [] sp hsp
    obtain ⟨msl, rsl, hsldec, _⟩ := walkSegs_shape t [] sl hsl
    rw [← hjoin]
    apply Bool.eq_false_iff.mpr
    intro hunder
    simp only [isUnder, Bool.or_eq_true, decide_eq_true_eq] at hunder
    rcases hunder with heq | hpre
    · have hsl_sp : sl = sp := joinSegs_inj sl sp hgood_sl hgood_sp heq
      exact hmain (by rw [hsl_sp])
    · have hpre' : joinSegs sp ++ ['/'] <+: joinSegs sl :=
        List.isPrefixOf_iff_prefix.mp hpre
      exact hmain (joinSegs_sep_pre sp sl (by simp [hspdec]) (by simp [hsldec])
        hgood_sp hgood_sl hpre')

/-- Witness for C2: a symlink `sub/x` pointing at `/outside/x`, and a tree
with a symlink entry `ln` beside the plain file `a.txt`. -/
theorem claim_C2_witness :
    readFileEffect wFs2a "/r".data "sub/x".data 9
      = .error (.denied "readFile".data "sub/x".data
          "Path resolves outside target root".data)
    ∧ isUnder (joinSegs ["ln".data]) "a.txt".data = false := by
  have h := claim_C2_symlink_containment
  refine ⟨h.1 wFs2a "/r".data "sub/x".data 9 ⟨"/r/sub/x".data, "sub/x".data⟩
    "/r".data "/outside/x".data rfl rfl rfl rfl, ?_⟩
  exact h.2 wTree2 "/r".data 400 ⟨"/r".data, ["a.txt".data]⟩ ["ln".data] "a.txt".data
    rfl (by decide) rfl (by decide)

/-! ### C6 -/

theorem safeReadTextFile_ok (tool : JStr) (buf : List Nat) (m : Nat) :
    safeReadTextFile tool (.ok buf) m
      = .ok ⟨utf8Decode (buf.take m), decide (buf.length > m)⟩ := by
  unfold safeReadTextFile
  dsimp only
  by_cases h : buf.length > m
  · simp [h]
  · simp [h, List.take_of_length_le (Nat.le_of_not_lt h)]

theorem scanLines_spec : ∀ (query rel : JStr) (mm : Nat) (lines : List JStr) (i : Nat)
    (acc : List SMatch), acc.length ≤ mm →
    scanLines query rel mm i lines acc
      = acc ++ (specLinesFrom query rel i lines).take (mm - acc.length) := by
  intro query rel mm lines
  induction lines with
  | nil => intro i acc _; simp [scanLines, specLinesFrom]
  | cons line rest ih =>
    intro i acc hle
    by_cases hfull : acc.length ≥ mm
    · have heq : mm - acc.length = 0 := by omega
      simp [scanLines, hfull, heq]
    · by_cases hmatch : hasSubstr line query = true
      · have hstep : scanLines query rel mm i (line :: rest) acc
            = scanLines query rel mm (i + 1) rest
                (acc ++ [⟨rel, i + 1, line.take 200⟩]) := by
          simp [scanLines, hmatch, hfull]
        have hlen : (acc ++ [(⟨rel, i + 1, line.take 200⟩ : SMatch)]).length
            = acc.length + 1 := by simp
        have hspec : specLinesFrom query rel i (line :: rest)
            = ⟨rel, i + 1, line.take 200⟩ :: specLinesFrom query rel (i + 1) rest := by
          simp [specLinesFrom, hmatch]
        obtain ⟨k, hk⟩ : ∃ k, mm - acc.length = k + 1 := ⟨mm - acc.length - 1, by omega⟩
        rw [hstep, ih (i + 1) _ (by rw [hlen]; omega), hlen, hspec, hk,
          List.take_succ_cons]
        have hk2 : mm - (acc.length + 1) = k := by omega
        rw [hk2]
        simp
      · have hstep : scanLines query rel mm i (line :: rest) acc
            = scanLines query rel mm (i + 1) rest acc := by
          simp [scanLines, hmatch, hfull]
        have hspec : specLinesFrom query rel i (line :: rest)
            = specLinesFrom query rel (i + 1) rest := by
          simp [specLinesFrom, hmatch]
        rw [hstep, ih (i + 1) acc hle, hspec]

theorem searchFiles_spec : ∀ (fs : FsOps) (rootAbs query : JStr) (mm : Nat)
    (files : List JStr) (A : JStr → JStr) (B : JStr → List Nat) (acc : List SMatch),
    (∀ rel ∈ files, resolveInsideRoot "searchText".data rootAbs rel = .ok ⟨A rel, rel⟩) →
    (∀ rel ∈ files, fs.readBytes (A rel) = .ok (B rel)) →
    acc.length ≤ mm →
    searchFiles fs rootAbs query mm files acc
      = .ok (acc ++ (specSearch query (fun rel => utf8Decode ((B rel).take 200000))
          files).take (mm - acc.length)) := by
  intro fs rootAbs query mm files
  induction files with
  | nil => intro A B acc _ _ _; simp [searchFiles, specSearch]
  | cons rel rest ih =>
    intro A B acc hres hread hle
    by_cases hfull : acc.length ≥ mm
    · have heq : mm - acc.length = 0 := by omega
      simp [searchFiles, hfull, heq]
    · by_cases hbin : hasBinaryExt rel = true
      · have hstep : searchFiles fs rootAbs query mm (rel :: rest) acc
            = searchFiles fs rootAbs query mm rest acc := by
          simp [searchFiles, hfull, hbin]
        have hspec : specSearch query
              (fun rel => utf8Decode ((B rel).take 200000)) (rel :: rest)
            = specSearch query (fun rel => utf8Decode ((B rel).take 200000)) rest := by
          simp [specSearch, hbin]
        rw [hstep, hspec, ih A B acc (fun r hr => hres r (List.mem_cons_of_mem rel hr))
          (fun r hr => hread r (List.mem_cons_of_mem rel hr)) hle]
      · have hunf : searchFiles fs rootAbs query mm (rel :: rest) acc
            = (if acc.length ≥ mm then .ok acc
               else if hasBinaryExt rel then searchFiles fs rootAbs query mm rest acc
               else do
                 let resolved ← resolveInsideRoot "searchText".data rootAbs rel
                 let file ← safeReadTextFile "searchText".data
                   (fs.readBytes resolved.abs) 200000
                 searchFiles fs rootAbs query mm rest
                   (scanLines query rel mm 0 (splitLines file.content) acc)) := rfl
        have hstep : searchFiles fs rootAbs query mm (rel :: rest) acc
            = searchFiles fs rootAbs query mm rest
                (scanLines query rel mm 0
                  (splitLines (utf8Decode ((B rel).take 200000))) acc) := by
          rw [hunf, if_neg hfull, if_neg hbin, hres rel (List.mem_cons_self _ _)]
          show (safeReadTextFile "searchText".data (fs.readBytes (A rel)) 200000
            >>= _) = _
          rw [hread rel (List.mem_cons_self _ _), safeReadTextFile_ok]
          rfl
        have hspec : specSearch query
              (fun rel => utf8Decode ((B rel).take 200000)) (rel :: rest)
            = specLinesFrom query rel 0 (splitLines (utf8Decode ((B rel).take 200000)))
              ++ specSearch query (fun rel => utf8Decode ((B rel).take 200000)) rest := by
          simp [specSearch, hbin]
        have hscan := scanLines_spec query rel mm
          (splitLines (utf8Decode ((B rel).take 200000))) 0 acc hle
        have hacc2len : (acc ++ (specLinesFrom query rel 0
            (splitLines (utf8Decode ((B rel).take 200000)))).take
              (mm - acc.length)).length ≤ mm := by
          rw [List.length_append, List.length_take]
          rcases Nat.le_total (mm - acc.length)
            (specLinesFrom query rel 0
              (splitLines (utf8Decode ((B rel).take 200000)))).length with hc | hc
          · rw [inf_eq_left.mpr hc]; omega
          · rw [inf_eq_right.mpr hc]; omega
        have hlen_eq : mm - (acc ++ (specLinesFrom query rel 0
            (splitLines (utf8Decode ((B rel).take 200000)))).take
              (mm - acc.length)).length
            = (mm - acc.length) - (specLinesFrom query rel 0
                (splitLines (utf8Decode ((B rel).take 200000)))).length := by
          rw [List.length_append, List.length_take]
          rcases Nat.le_total (mm - acc.length)
            (specLinesFrom query rel 0
              (splitLines (utf8Decode ((B rel).take 200000)))).length with hc | hc
          · rw [inf_eq_left.mpr hc]; omega
          · rw [inf_eq_right.mpr hc]; omega
        rw [hstep, hscan, ih A B _ (fun r hr => hres r (List.mem_cons_of_mem rel hr))
          (fun r hr => hread r (List.mem_cons_of_mem rel hr)) hacc2len, hspec,
          List.take_append_eq_append_take, hlen_eq, List.append_assoc]

/-- C6: when every listed candidate resolves and reads successfully,
`searchText` returns exactly the specification matches — non-binary files
of the (sorted, capped) listing scanned in order, lines split on `\r?\n`
and matched by case-sensitive literal inclusion of the query, 1-based line
numbers, previews capped at 200 characters, each file read under the
200000-byte cap — truncated to the first `maxMatches` records; and once
`maxMatches` matches are collected the scan stops entirely, touching no
further file on any filesystem. -/
theorem claim_C6_search (fs : FsOps) (enum : Except SysError (List JStr))
    (rootAbs query : JStr) (mm : Nat) (listed : ListOut)
    (A : JStr → JStr) (B : JStr → List Nat)
    (hlist : listFilesEffect enum rootAbs DEFAULT_MAX_FILES = .ok listed)
    (hres : ∀ rel ∈ listed.files,
      resolveInsideRoot "searchText".data rootAbs rel = .ok ⟨A rel, rel⟩)
    (hread : ∀ rel ∈ listed.files, fs.readBytes (A rel) = .ok (B rel)) :
    searchTextEffect fs enum rootAbs query mm
      = .ok ⟨rootAbs, query,
          (specSearch query (fun rel => utf8Decode ((B rel).take 200000))
            listed.files).take mm⟩
    ∧ (∀ (files : List JStr) (acc : List SMatch) (fs' : FsOps), mm ≤ acc.length →
        searchFiles fs' rootAbs query mm files acc = .ok acc) := by
  constructor
  · unfold searchTextEffect
    rw [hlist]
    show (searchFiles fs rootAbs query mm listed.files [] >>= _) = _
    rw [searchFiles_spec fs rootAbs query mm listed.files A B [] hres hread (by simp)]
    simp
  · intro files acc fs' hge
    cases files with
    | nil => rfl
    | cons rel rest =>
      have : acc.length ≥ mm := hge
      simp [searchFiles, this]

/-- Witness for C6 on the two-file scenario: `a.txt` matches on line 3,
`b.txt` on line 1, reported in sorted file order. -/
theorem claim_C6_witness :
    searchTextEffect wFs6 (.ok (walkDir [] wTree6)) "/r".data "foo".data 50
      = .ok ⟨"/r".data, "foo".data,
          [⟨"a.txt".data, 3, "foo".data⟩, ⟨"b.txt".data, 1, "foo".data⟩]⟩
    ∧ searchFiles wFsDead "/r".data "foo".data 0 ["a.txt".data] [] = .ok [] := by
  have h := claim_C6_search wFs6 (.ok (walkDir [] wTree6)) "/r".data "foo".data 50
    ⟨"/r".data, ["a.txt".data, "b.txt".data]⟩ wA wB rfl
    (by
      intro rel hr
      rcases List.mem_cons.mp hr with h1 | hr2
      · subst h1; rfl
      · rcases List.mem_cons.mp hr2 with h2 | h3
        · subst h2; rfl
        · simp at h3)
    (by
      intro rel hr
      rcases List.mem_cons.mp hr with h1 | hr2
      · subst h1; rfl
      · rcases List.mem_cons.mp hr2 with h2 | h3
        · subst h2; rfl
        · simp at h3)
  constructor
  · rw [h.1]
    rfl
  · have h50 := claim_C6_search wFs6 (.ok (walkDir [] wTree6)) "/r".data "foo".data 0
      ⟨"/r".data, ["a.txt".data, "b.txt".data]⟩ wA wB rfl
      (by
        intro rel hr
        rcases List.mem_cons.mp hr with h1 | hr2
        · subst h1; rfl
        · rcases List.mem_cons.mp hr2 with h2 | h3
          · subst h2; rfl
          · simp at h3)
      (by
        intro rel hr
        rcases List.mem_cons.mp hr with h1 | hr2
        · subst h1; rfl
        · rcases List.mem_cons.mp hr2 with h2 | h3
          · subst h2; rfl
          · simp at h3)
    exact h50.2 ["a.txt".data] [] wFsDead (by simp)
